import Mathlib

/-!
Shallow embedding of the reconciliation pipeline of the interpol_task
repository (src/database_operations.py, src/producer.py, with the schema of
src/database_creation.py).

Modelling conventions:
* The relational store is the explicit `DBState` record: one list per table,
  plus the two audit tables and a fresh surrogate-id counter (the DB's
  integer-primary-key sequences; every existing surrogate id is assumed
  below the counter where a theorem needs it).
* Python scalar values that can sit in a `personal_informations` column are
  `Scalar`; raw JSON scalar values arriving in a queue message are `Jscalar`
  (with `null`).  Python `int`, `float` and `Decimal` are all modelled as
  exact rationals: `Decimal(str(v))` applied to a JSON float is
  value-preserving on the decimal literal, and Python `==` compares all three
  types numerically, so one rational constructor is a faithful model of every
  comparison the code performs.
* `datetime.datetime.strptime(value, '%Y/%m/%d').date()` is modelled by
  `parseDate` (digit components split on "/", months 1..12, days 1..31);
  a parse failure is the uncaught `ValueError`.
* Exceptions are `Except Err`: an `.error` escaping a callback means the
  session was never committed, so the store is unchanged
  (`callback_change_db_full`).
* JSON serialisation on the queue is lossless on these payloads, so a
  published message is modelled as the `PersonalInfoData` record itself,
  tagged with the routing key.
-/

inductive Scalar where
  | s (v : String)
  | num (v : ℚ)
  | date (y m d : Nat)
  | b (v : Bool)
deriving DecidableEq, Repr

inductive Jscalar where
  | null
  | s (v : String)
  | intg (v : Int)
  | flt (v : ℚ)
  | b (v : Bool)
deriving DecidableEq, Repr

inductive Err where
  | noResultFound
  | multipleResults
  | attributeError
  | valueError
  | typeError
deriving DecidableEq, Repr

/-- Python `==` between a stored column value and a coerced incoming value.
Numbers (int / float / Decimal) compare numerically; `True == 1` and
`False == 0` hold in Python; values of unrelated types are unequal. -/
def scalarEq : Scalar → Scalar → Bool
  | .s a, .s b => a == b
  | .num a, .num b => a == b
  | .date y m d, .date y' m' d' => y == y' && m == m' && d == d'
  | .b a, .b b => a == b
  | .num a, .b b => a == (if b then (1 : ℚ) else 0)
  | .b a, .num b => (if a then (1 : ℚ) else 0) == b
  | _, _ => false

/-- Python `getattr(db_personal_info, key) != value` where the stored value
may be `None` (`none`) and `value` is known non-`None`. -/
def pyNe (old : Option Scalar) (v : Scalar) : Bool :=
  match old with
  | none => true
  | some w => !(scalarEq w v)

/-- Model of `datetime.datetime.strptime(s, '%Y/%m/%d').date()`: three
digit-only components separated by "/", month in 1..12 and day in 1..31. -/
def parseDate (s : String) : Option Scalar :=
  match s.splitOn "/" with
  | [ys, ms, ds] =>
    match ys.toNat?, ms.toNat?, ds.toNat? with
    | some y, some m, some d =>
      if 1 ≤ m ∧ m ≤ 12 ∧ 1 ≤ d ∧ d ≤ 31 then some (.date y m d) else none
    | _, _, _ => none
  | _ => none

/-- Coercion performed by `callback_change_db` on a non-null scalar value:
`date_of_birth` strings are parsed as dates (anything else in that field is
a `strptime` `TypeError`); for `height`/`weight` a JSON float is passed
through `Decimal(str(value))`, which preserves its decimal value, so numeric
payloads keep their rational value in every field. -/
def coerceValue (key : String) : Jscalar → Except Err Scalar
  | .null => .error .typeError
  | .s v =>
    if key == "date_of_birth" then
      match parseDate v with
      | some d => .ok d
      | none => .error .valueError
    else .ok (.s v)
  | .intg v => if key == "date_of_birth" then .error .typeError else .ok (.num (v : ℚ))
  | .flt v => if key == "date_of_birth" then .error .typeError else .ok (.num v)
  | .b v => if key == "date_of_birth" then .error .typeError else .ok (.b v)

/-- Row of `personal_informations` (database_creation.PersonalInformation). -/
structure PersonalInformation where
  entity_id : String
  forename : Option Scalar
  name : Option Scalar
  sex_id : Option Scalar
  date_of_birth : Option Scalar
  place_of_birth : Option Scalar
  country_of_birth_id : Option Scalar
  weight : Option Scalar
  height : Option Scalar
  distinguishing_marks : Option Scalar
  eyes_colors_id : Option Scalar
  hairs_id : Option Scalar
  is_active : Bool
  thumbnail : Option Scalar
deriving DecidableEq, Repr

/-- The scalar columns of `personal_informations`, as an enumeration used to
model Python attribute access by column name. -/
inductive PField where
  | entity_id | forename | name | sex_id | date_of_birth | place_of_birth
  | country_of_birth_id | weight | height | distinguishing_marks
  | eyes_colors_id | hairs_id | is_active | thumbnail
deriving DecidableEq, Repr

/-- `getattr(row, column)` for the scalar columns. -/
def getF (p : PersonalInformation) : PField → Option Scalar
  | .entity_id => some (.s p.entity_id)
  | .forename => p.forename
  | .name => p.name
  | .sex_id => p.sex_id
  | .date_of_birth => p.date_of_birth
  | .place_of_birth => p.place_of_birth
  | .country_of_birth_id => p.country_of_birth_id
  | .weight => p.weight
  | .height => p.height
  | .distinguishing_marks => p.distinguishing_marks
  | .eyes_colors_id => p.eyes_colors_id
  | .hairs_id => p.hairs_id
  | .is_active => some (.b p.is_active)
  | .thumbnail => p.thumbnail

/-- Column update `UPDATE personal_informations SET column = v`.  The two
typed columns `entity_id` (String) and `is_active` (Boolean) only ever
receive values of their own type in the code paths modelled here. -/
def setF (p : PersonalInformation) : PField → Scalar → PersonalInformation
  | .entity_id, v => match v with | .s s => { p with entity_id := s } | _ => p
  | .forename, v => { p with forename := some v }
  | .name, v => { p with name := some v }
  | .sex_id, v => { p with sex_id := some v }
  | .date_of_birth, v => { p with date_of_birth := some v }
  | .place_of_birth, v => { p with place_of_birth := some v }
  | .country_of_birth_id, v => { p with country_of_birth_id := some v }
  | .weight, v => { p with weight := some v }
  | .height, v => { p with height := some v }
  | .distinguishing_marks, v => { p with distinguishing_marks := some v }
  | .eyes_colors_id, v => { p with eyes_colors_id := some v }
  | .hairs_id, v => { p with hairs_id := some v }
  | .is_active, v => match v with | .b b => { p with is_active := b } | _ => p
  | .thumbnail, v => { p with thumbnail := some v }

/-- Column-name lookup: `none` is a Python `AttributeError`. -/
def fieldOfKey : String → Option PField
  | "entity_id" => some .entity_id
  | "forename" => some .forename
  | "name" => some .name
  | "sex_id" => some .sex_id
  | "date_of_birth" => some .date_of_birth
  | "place_of_birth" => some .place_of_birth
  | "country_of_birth_id" => some .country_of_birth_id
  | "weight" => some .weight
  | "height" => some .height
  | "distinguishing_marks" => some .distinguishing_marks
  | "eyes_colors_id" => some .eyes_colors_id
  | "hairs_id" => some .hairs_id
  | "is_active" => some .is_active
  | "thumbnail" => some .thumbnail
  | _ => none

/-- Row of one of the three structurally diffed collection tables
(`language_informations`, `nationality_informations`,
`arrest_warrant_informations`): surrogate integer key (`columns[0]`),
`entity_id` (`columns[1]`) and the payload columns (`columns[2:]`) in table
order. -/
structure CollRow where
  sid : Nat
  entity_id : String
  attrs : List (Option Scalar)
deriving DecidableEq, Repr

/-- An incoming collection dict from the queue payload, and equally the
`item_dict` built from a stored row over `columns[1:]`.  Both sides carry
exactly the keys `columns[1:]`, so Python dict equality is componentwise
equality in column order. -/
structure CollItem where
  entity_id : String
  attrs : List (Option Scalar)
deriving DecidableEq, Repr

/-- `item_dict` of a stored row over `columns[1:]`. -/
def rowDict (r : CollRow) : CollItem := ⟨r.entity_id, r.attrs⟩

/-- Row of `picture_informations`. -/
structure PictureRow where
  picture_id : Int
  entity_id : String
  picture_url : String
  picture_base64 : String
deriving DecidableEq, Repr

/-- Incoming picture dict built by the producer. -/
structure PicPayload where
  entity_id : String
  picture_id : Int
  picture_url : String
  picture_base64 : String
deriving DecidableEq, Repr

/-- Row of `change_log` (scalar-field audit).  The code stores
`str(old_value)`/`str(new_value)`; the embedding keeps the values themselves,
which is lossless. -/
structure ChangeLogRow where
  entity_id : String
  table_name : String
  field_name : String
  old_value : Option Scalar
  new_value : Option Scalar
  description : String
deriving DecidableEq, Repr

/-- Row of `log` (row-level audit with JSONB column snapshot). -/
structure LogRow where
  entity_id : String
  table_name : String
  action : String
  column_data : List (String × Option Scalar)
  description : Option String
deriving DecidableEq, Repr

/-- The persisted relational state. -/
structure DBState where
  personals : List PersonalInformation
  languages : List CollRow
  nationalities : List CollRow
  warrants : List CollRow
  pictures : List PictureRow
  change_log : List ChangeLogRow
  log : List LogRow
  nextId : Nat
deriving DecidableEq, Repr

/-- Static description of a structurally diffed table: its name and its
payload column names (`columns[2:]` from `inspector.get_columns`). -/
structure TableDesc where
  tablename : String
  payloadCols : List String
deriving DecidableEq, Repr

def languageDesc : TableDesc := ⟨"language_informations", ["languages_spoken_id"]⟩

def nationalityDesc : TableDesc := ⟨"nationality_informations", ["nationality"]⟩

def arrestWarrantDesc : TableDesc :=
  ⟨"arrest_warrant_informations", ["issuing_country_id", "charge", "charge_translation"]⟩

/-- The normalized record built by `InterpolPerson._get_data` and shipped as
the JSON body on both queues, in dict insertion order. -/
structure PersonalInfoData where
  entity_id : String
  name : Jscalar
  forename : Jscalar
  sex_id : Jscalar
  country_of_birth_id : Jscalar
  place_of_birth : Jscalar
  date_of_birth : Jscalar
  height : Jscalar
  eyes_colors_id : Jscalar
  hairs_id : Jscalar
  distinguishing_marks : Jscalar
  weight : Jscalar
  is_active : Bool
  thumbnail : Jscalar
  nationalities : Option (List CollItem)
  languages_spoken_ids : Option (List CollItem)
  arrest_warrants : Option (List CollItem)
  pictures : Option (List PicPayload)
deriving DecidableEq, Repr

/-- `data.items()` restricted to the scalar entries, in the dict insertion
order fixed by the producer. -/
def scalarItems (m : PersonalInfoData) : List (String × Jscalar) :=
  [("entity_id", .s m.entity_id), ("name", m.name), ("forename", m.forename),
   ("sex_id", m.sex_id), ("country_of_birth_id", m.country_of_birth_id),
   ("place_of_birth", m.place_of_birth), ("date_of_birth", m.date_of_birth),
   ("height", m.height), ("eyes_colors_id", m.eyes_colors_id),
   ("hairs_id", m.hairs_id), ("distinguishing_marks", m.distinguishing_marks),
   ("weight", m.weight), ("is_active", .b m.is_active), ("thumbnail", m.thumbnail)]

/-- `session.query(PersonalInformation).filter_by(entity_id=eid).one()`. -/
def queryOnePersonal (db : DBState) (eid : String) : Except Err PersonalInformation :=
  match db.personals.filter (fun p => p.entity_id == eid) with
  | [] => .error .noResultFound
  | [p] => .ok p
  | _ => .error .multipleResults

/-- `add_change_log_entry`: append one `change_log` row to the session. -/
def add_change_log_entry (db : DBState) (key eid : String) (oldv newv : Option Scalar)
    (tbl descr : String) : DBState :=
  { db with change_log := db.change_log ++ [⟨eid, tbl, key, oldv, newv, descr⟩] }

/-- The effect of one detected scalar change: the `change_log` append followed
by the `UPDATE ... SET {key: value} WHERE entity_id == eid`. -/
def applyFieldUpdate (db : DBState) (eid : String) (dbp : PersonalInformation)
    (key : String) (fld : PField) (v' : Scalar) : DBState :=
  let db1 := add_change_log_entry db key dbp.entity_id (getF dbp fld) (some v')
      "personal_informations" "Change in personal information"
  { db1 with
    personals := db1.personals.map (fun r => if r.entity_id == eid then setF r fld v' else r) }

/-- One iteration of the `callback_change_db` loop for a scalar key: re-query
the stored row, skip `None` values, coerce, compare, and update plus log only
on inequality. -/
def scalarStep (db : DBState) (eid key : String) (v : Jscalar) : Except Err DBState :=
  match queryOnePersonal db eid with
  | .error e => .error e
  | .ok dbp =>
    if v = Jscalar.null then .ok db
    else
      match coerceValue key v with
      | .error e => .error e
      | .ok v' =>
        match fieldOfKey key with
        | none => .error .attributeError
        | some fld =>
          if pyNe (getF dbp fld) v' then .ok (applyFieldUpdate db eid dbp key fld v')
          else .ok db

/-- The scalar part of the `callback_change_db` loop over `data.items()`. -/
def runScalars (eid : String) : DBState → List (String × Jscalar) → Except Err DBState
  | db, [] => .ok db
  | db, (k, v) :: rest =>
    match scalarStep db eid k v with
    | .error e => .error e
    | .ok db' => runScalars eid db' rest

/-- Dict snapshot for an insert in the nonempty-stored branch of
`process_data`: payload columns first, `entity_id` appended last. -/
def mkAddedSnap (desc : TableDesc) (eid : String) (attrs : List (Option Scalar)) :
    List (String × Option Scalar) :=
  (desc.payloadCols.zip attrs) ++ [("entity_id", some (.s eid))]

def mkAddLog (desc : TableDesc) (eid : String) (d : CollItem) : LogRow :=
  ⟨eid, desc.tablename, "Added", mkAddedSnap desc eid d.attrs, none⟩

/-- Dict snapshot with `entity_id` first (the empty-stored insert branch of
`process_data`, `callback_db` inserts, and all deletes). -/
def mkSnapAll (desc : TableDesc) (eid : String) (attrs : List (Option Scalar)) :
    List (String × Option Scalar) :=
  ("entity_id", some (.s eid)) :: (desc.payloadCols.zip attrs)

def mkAddLogAll (desc : TableDesc) (eid : String) (d : CollItem) : LogRow :=
  ⟨eid, desc.tablename, "Added", mkSnapAll desc eid d.attrs, none⟩

def mkDelLog (desc : TableDesc) (r : CollRow) : LogRow :=
  ⟨r.entity_id, desc.tablename, "Deleted", mkSnapAll desc r.entity_id r.attrs, none⟩

/-- `process_data` add loop when stored rows exist: every incoming dict not
among the stored `items_list` is inserted (with a fresh surrogate id) and
logged `Added`. -/
def addPhase (desc : TableDesc) (eid : String) (items_list : List CollItem) :
    List CollItem → Nat → List CollRow × List LogRow × Nat
  | [], n => ([], [], n)
  | d :: ds, n =>
    if d ∈ items_list then addPhase desc eid items_list ds n
    else
      let rest := addPhase desc eid items_list ds (n + 1)
      (⟨n, eid, d.attrs⟩ :: rest.1, mkAddLog desc eid d :: rest.2.1, rest.2.2)

/-- Inner loop of the `process_data` delete pass: every stored id-dict whose
`columns[1:]` equal the vanished item has its row deleted by surrogate key,
and a `Deleted` entry (with the pre-delete snapshot) is logged each time. -/
def innerDel (desc : TableDesc) (item : CollItem) :
    List CollRow → List CollRow → List CollRow × List LogRow
  | [], rows => (rows, [])
  | idr :: ids, rows =>
    if rowDict idr = item then
      let rest := innerDel desc item ids (rows.filter (fun r => r.sid ≠ idr.sid))
      (rest.1, mkDelLog desc idr :: rest.2)
    else innerDel desc item ids rows

/-- `process_data` delete loop: every stored item-dict not present among the
incoming dicts is deleted via `innerDel`. -/
def delPhase (desc : TableDesc) (dataL : List CollItem) (ids_list : List CollRow) :
    List CollItem → List CollRow → List CollRow × List LogRow
  | [], rows => (rows, [])
  | item :: items, rows =>
    if item ∈ dataL then delPhase desc dataL ids_list items rows
    else
      let step := innerDel desc item ids_list rows
      let rest := delPhase desc dataL ids_list items step.1
      (rest.1, step.2 ++ rest.2)

/-- `process_data` insert-everything branch (no stored rows): note the
incoming dict's own `entity_id` is overwritten by the `entity_id` argument. -/
def addAllPhase (desc : TableDesc) (eid : String) :
    List CollItem → Nat → List CollRow × List LogRow × Nat
  | [], n => ([], [], n)
  | d :: ds, n =>
    let rest := addAllPhase desc eid ds (n + 1)
    (⟨n, eid, d.attrs⟩ :: rest.1, mkAddLogAll desc eid d :: rest.2.1, rest.2.2)

/-- `process_data` delete-everything branch (incoming data empty or null). -/
def deleteAllPhase (desc : TableDesc) : List CollRow → List CollRow → List CollRow × List LogRow
  | [], rows => (rows, [])
  | r :: rs, rows =>
    let rest := deleteAllPhase desc rs (rows.filter (fun x => x.sid ≠ r.sid))
    (rest.1, mkDelLog desc r :: rest.2)

/-- `DatabaseOperationsCallback.process_data` on one structurally diffed
table: returns the new full row list of that table, the `log` entries
appended (in order), and the advanced surrogate-id counter. -/
def process_data (desc : TableDesc) (dataOpt : Option (List CollItem)) (eid : String)
    (rows : List CollRow) (n : Nat) : List CollRow × List LogRow × Nat :=
  let db_infos := rows.filter (fun r => r.entity_id == eid)
  let items_list := db_infos.map rowDict
  let dataL := dataOpt.getD []
  if dataL ≠ [] then
    if db_infos ≠ [] then
      let added := addPhase desc eid items_list dataL n
      let afterDel := delPhase desc dataL db_infos items_list (rows ++ added.1)
      (afterDel.1, added.2.1 ++ afterDel.2, added.2.2)
    else
      let added := addAllPhase desc eid dataL n
      (rows ++ added.1, added.2.1, added.2.2)
  else
    if db_infos ≠ [] then
      let res := deleteAllPhase desc db_infos rows
      (res.1, res.2, n)
    else (rows, [], n)

/-- One collection key of the `callback_change_db` loop: the loop body's
`.one()` query still runs first, then `process_data` is applied to the
selected table. -/
def collStep (db : DBState) (eid : String) (desc : TableDesc)
    (sel : DBState → List CollRow) (upd : DBState → List CollRow → DBState)
    (dataOpt : Option (List CollItem)) : Except Err DBState :=
  match queryOnePersonal db eid with
  | .error e => .error e
  | .ok _ =>
    let res := process_data desc dataOpt eid (sel db) db.nextId
    .ok { upd db res.1 with log := db.log ++ res.2.1, nextId := res.2.2 }

def picSnap (p : PictureRow) : List (String × Option Scalar) :=
  [("entity_id", some (.s p.entity_id)), ("picture_id", some (.num (p.picture_id : ℚ))),
   ("picture_url", some (.s p.picture_url)), ("picture_base64", some (.s p.picture_base64))]

def mkPicDelLog (logEid : String) (p : PictureRow) : LogRow :=
  ⟨logEid, "picture_informations", "Deleted", picSnap p, none⟩

def mkPicAddLog (eid : String) (pid : Int) (url b64 : String) : LogRow :=
  ⟨eid, "picture_informations", "Added",
   [("entity_id", some (.s eid)), ("picture_id", some (.num (pid : ℚ))),
    ("picture_url", some (.s url)), ("picture_base64", some (.s b64))], none⟩

/-- Delete loop of the picture branch: each stored id absent from the queue is
looked up globally by `picture_id` (`first()`), snapshotted, deleted and
logged with the message's `entity_id`. -/
def deletePicsLoop (eid : String) : List Int → List PictureRow → List PictureRow × List LogRow
  | [], rows => (rows, [])
  | pid :: pids, rows =>
    match rows.find? (fun p => p.picture_id == pid) with
    | none => deletePicsLoop eid pids rows
    | some pinfo =>
      let rest := deletePicsLoop eid pids (rows.filter (fun p => p.picture_id ≠ pinfo.picture_id))
      (rest.1, mkPicDelLog eid pinfo :: rest.2)

/-- Add loop of the picture branch: for each queue id not stored, every queue
payload with that id yields one new row and one `Added` log entry. -/
def addPicsLoop (eid : String) (pics : List PicPayload) :
    List Int → List PictureRow × List LogRow
  | [] => ([], [])
  | p :: ps =>
    let hits := pics.filter (fun f => f.picture_id == p)
    let rest := addPicsLoop eid pics ps
    (hits.map (fun f => (⟨p, eid, f.picture_url, f.picture_base64⟩ : PictureRow)) ++ rest.1,
     hits.map (fun f => mkPicAddLog eid p f.picture_url f.picture_base64) ++ rest.2)

/-- Delete-everything picture branch (queue pictures empty/null, stored
nonempty): `.one()` by `picture_id`, logged with the row's own `entity_id`. -/
def deleteAllPicsLoop : List Int → List PictureRow → Except Err (List PictureRow × List LogRow)
  | [], rows => .ok (rows, [])
  | pid :: pids, rows =>
    match rows.filter (fun p => p.picture_id == pid) with
    | [pdb] =>
      match deleteAllPicsLoop pids (rows.filter (fun p => p.picture_id ≠ pid)) with
      | .error e => .error e
      | .ok rest => .ok (rest.1, mkPicDelLog pdb.entity_id pdb :: rest.2)
    | [] => .error .noResultFound
    | _ => .error .multipleResults

def entityPictureIds (db : DBState) (eid : String) : List Int :=
  (db.pictures.filter (fun p => p.entity_id == eid)).map (fun p => p.picture_id)

/-- The `pictures` key of the `callback_change_db` loop.  Note the source
guard `if data['pictures'] and db_picture_ids:`: inserts require BOTH the
incoming queue list and the stored picture set to be nonempty. -/
def picturesStep (db : DBState) (eid : String) (dataOpt : Option (List PicPayload)) :
    Except Err DBState :=
  match queryOnePersonal db eid with
  | .error e => .error e
  | .ok _ =>
    let db_picture_ids := entityPictureIds db eid
    let dataPics := dataOpt.getD []
    if dataPics ≠ [] ∧ db_picture_ids ≠ [] then
      let queue_picture_ids := dataPics.map (fun q => q.picture_id)
      let delete_ids := db_picture_ids.filter (fun q => q ∉ queue_picture_ids)
      let afterDel := deletePicsLoop eid delete_ids db.pictures
      let new_picture_ids := queue_picture_ids.filter (fun p => p ∉ db_picture_ids)
      let added := addPicsLoop eid dataPics new_picture_ids
      .ok { db with pictures := afterDel.1 ++ added.1,
                    log := db.log ++ afterDel.2 ++ added.2 }
    else if dataPics = [] ∧ db_picture_ids ≠ [] then
      match deleteAllPicsLoop db_picture_ids db.pictures with
      | .error e => .error e
      | .ok res => .ok { db with pictures := res.1, log := db.log ++ res.2 }
    else .ok db

/-- `DatabaseOperationsCallback.callback_change_db`: the loop over
`data.items()` in message dict order (the fourteen scalar keys, then
`nationalities`, `languages_spoken_ids`, `arrest_warrants`, `pictures`).
An `.error` is an uncaught Python exception: nothing is committed. -/
def callback_change_db (db : DBState) (m : PersonalInfoData) : Except Err DBState :=
  match runScalars m.entity_id db (scalarItems m) with
  | .error e => .error e
  | .ok db1 =>
    match collStep db1 m.entity_id nationalityDesc (fun s => s.nationalities)
        (fun s rs => { s with nationalities := rs }) m.nationalities with
    | .error e => .error e
    | .ok db2 =>
      match collStep db2 m.entity_id languageDesc (fun s => s.languages)
          (fun s rs => { s with languages := rs }) m.languages_spoken_ids with
      | .error e => .error e
      | .ok db3 =>
        match collStep db3 m.entity_id arrestWarrantDesc (fun s => s.warrants)
            (fun s rs => { s with warrants := rs }) m.arrest_warrants with
        | .error e => .error e
        | .ok db4 => picturesStep db4 m.entity_id m.pictures

/-- `jToStored`: a raw JSON value as it lands in a column / JSONB snapshot. -/
def jToStored : Jscalar → Option Scalar
  | .null => none
  | .s v => some (.s v)
  | .intg v => some (.num (v : ℚ))
  | .flt v => some (.num v)
  | .b v => some (.b v)

/-- The Entity row built by `callback_db` from the raw message scalars. -/
def mkPersonalRow (m : PersonalInfoData) : PersonalInformation :=
  ⟨m.entity_id, jToStored m.forename, jToStored m.name, jToStored m.sex_id,
   jToStored m.date_of_birth, jToStored m.place_of_birth, jToStored m.country_of_birth_id,
   jToStored m.weight, jToStored m.height, jToStored m.distinguishing_marks,
   jToStored m.eyes_colors_id, jToStored m.hairs_id, m.is_active, jToStored m.thumbnail⟩

/-- The `personal_info_data` dict snapshot logged by `callback_db`. -/
def personalSnap (m : PersonalInfoData) : List (String × Option Scalar) :=
  [("entity_id", some (.s m.entity_id)), ("name", jToStored m.name),
   ("forename", jToStored m.forename), ("sex_id", jToStored m.sex_id),
   ("country_of_birth_id", jToStored m.country_of_birth_id),
   ("place_of_birth", jToStored m.place_of_birth),
   ("date_of_birth", jToStored m.date_of_birth), ("height", jToStored m.height),
   ("eyes_colors_id", jToStored m.eyes_colors_id), ("hairs_id", jToStored m.hairs_id),
   ("distinguishing_marks", jToStored m.distinguishing_marks),
   ("weight", jToStored m.weight), ("is_active", some (.b m.is_active)),
   ("thumbnail", jToStored m.thumbnail)]

/-- Picture inserts of `callback_db` (every queue picture, unconditionally). -/
def insertPicsAll (eid : String) : List PicPayload → List PictureRow × List LogRow
  | [] => ([], [])
  | p :: ps =>
    let rest := insertPicsAll eid ps
    ((⟨p.picture_id, eid, p.picture_url, p.picture_base64⟩ : PictureRow) :: rest.1,
     mkPicAddLog eid p.picture_id p.picture_url p.picture_base64 :: rest.2)

/-- `DatabaseOperationsCallback.callback_db`: the candidate state produced for
an `add_data` message (one Entity row, every non-null sub-collection item,
one `Added` log entry per inserted row), before `handle_database_transaction`
commits or rolls it back. -/
def callback_db (db : DBState) (m : PersonalInfoData) : DBState :=
  let db0 := { db with
    personals := db.personals ++ [mkPersonalRow m],
    log := db.log ++ [(⟨m.entity_id, "personal_informations", "Added", personalSnap m, none⟩ : LogRow)] }
  let w := addAllPhase arrestWarrantDesc m.entity_id (m.arrest_warrants.getD []) db0.nextId
  let db1 := { db0 with warrants := db0.warrants ++ w.1, log := db0.log ++ w.2.1, nextId := w.2.2 }
  let pcs := insertPicsAll m.entity_id (m.pictures.getD [])
  let db2 := { db1 with pictures := db1.pictures ++ pcs.1, log := db1.log ++ pcs.2 }
  let lg := addAllPhase languageDesc m.entity_id (m.languages_spoken_ids.getD []) db2.nextId
  let db3 := { db2 with languages := db2.languages ++ lg.1, log := db2.log ++ lg.2.1, nextId := lg.2.2 }
  let nt := addAllPhase nationalityDesc m.entity_id (m.nationalities.getD []) db3.nextId
  { db3 with nationalities := db3.nationalities ++ nt.1, log := db3.log ++ nt.2.1, nextId := nt.2.2 }

/-- The primary-key uniqueness constraints enforced by the store at commit. -/
def integrityOk (s : DBState) : Prop :=
  (s.personals.map (fun p => p.entity_id)).Nodup ∧
  (s.pictures.map (fun p => p.picture_id)).Nodup ∧
  (s.languages.map (fun r => r.sid)).Nodup ∧
  (s.nationalities.map (fun r => r.sid)).Nodup ∧
  (s.warrants.map (fun r => r.sid)).Nodup

instance (s : DBState) : Decidable (integrityOk s) := by
  unfold integrityOk; infer_instance

/-- `handle_database_transaction`: `commit` the whole session, and on an
`IntegrityError` roll back every pending change, silently. -/
def handle_database_transaction (initial candidate : DBState) : DBState :=
  if integrityOk candidate then candidate else initial

/-- One `add_data` message processed end to end (callback plus commit). -/
def callback_db_full (db : DBState) (m : PersonalInfoData) : DBState :=
  handle_database_transaction db (callback_db db m)

/-- One `change_data` message processed end to end: an uncaught exception in
the callback means the session is never committed and the store is
unchanged. -/
def callback_change_db_full (db : DBState) (m : PersonalInfoData) : DBState :=
  match callback_change_db db m with
  | .error _ => db
  | .ok s => handle_database_transaction db s

/-- The `ChangeLogInformation` row written by the producer's vanished sweep. -/
def vanishEntry (eid : String) : ChangeLogRow :=
  ⟨eid, "personal_informations", "is_active", some (.b true), some (.b false),
   "Change in personal information"⟩

/-- `person.is_active = False` applied to the `first()` row of the filter. -/
def updateFirstPersonal : List PersonalInformation → String → List PersonalInformation
  | [], _ => []
  | p :: ps, eid =>
    if p.entity_id == eid then { p with is_active := false } :: ps
    else p :: updateFirstPersonal ps eid

/-- One iteration of the producer's vanished sweep for one stored
`entity_id`. -/
def sweepStep (fetchedIds : List String) (db : DBState) (eid : String) : DBState :=
  if eid ∈ fetchedIds then db
  else
    match (db.personals.filter (fun p => p.entity_id == eid)).head? with
    | none => db
    | some person =>
      if person.is_active then
        { db with personals := updateFirstPersonal db.personals eid,
                  change_log := db.change_log ++ [vanishEntry eid] }
      else db

/-- The producer's loop over `existing_entity_ids`. -/
def vanishSweep (fetchedIds : List String) : DBState → List String → DBState
  | db, [] => db
  | db, eid :: rest => vanishSweep fetchedIds (sweepStep fetchedIds db eid) rest

/-- Routing of one fetched record: an existing stored Entity row sends the
full serialized record to the `change_data` queue, otherwise to `add_data`. -/
def routeRecord (db : DBState) (r : PersonalInfoData) : String × PersonalInfoData :=
  if ((db.personals.filter (fun p => p.entity_id == r.entity_id)).head?).isSome
  then ("change_data", r) else ("add_data", r)

/-- `InterpolDataRetriever.retrieve_data` on a normalized fetch batch: the
publish loop (which does not write to the store), then the vanished sweep
applied directly in the producing process, then `commit` (which can raise no
integrity error on this write set and is modelled as the identity). -/
def retrieve_data (db : DBState) (fetched : List PersonalInfoData) :
    List (String × PersonalInfoData) × DBState :=
  let pubs := fetched.map (routeRecord db)
  let entity_id_list := fetched.map (fun r => r.entity_id)
  let existing := db.personals.map (fun p => p.entity_id)
  (pubs, vanishSweep entity_id_list db existing)

/-! ## Shared helper lemmas -/

lemma filterHead_isSome (l : List PersonalInformation) (eid : String) :
    ((l.filter (fun p => p.entity_id == eid)).head?).isSome = true ↔
      ∃ p ∈ l, p.entity_id = eid := by
  cases hf : l.filter (fun p => p.entity_id == eid) with
  | nil =>
    simp only [List.head?_nil, Option.isSome_none, Bool.false_eq_true, false_iff]
    rintro ⟨p, hp, he⟩
    have := List.filter_eq_nil_iff.mp hf p hp
    simp [he] at this
  | cons a as =>
    simp only [List.head?_cons, Option.isSome_some, true_iff]
    have ha : a ∈ l.filter (fun p => p.entity_id == eid) := by
      rw [hf]; exact List.mem_cons_self a as
    rcases List.mem_filter.mp ha with ⟨hal, hae⟩
    exact ⟨a, hal, by simpa using hae⟩

lemma routeRecord_eq (db : DBState) (r : PersonalInfoData) :
    routeRecord db r =
      ((if ∃ p ∈ db.personals, p.entity_id = r.entity_id then "change_data" else "add_data"), r) := by
  unfold routeRecord
  by_cases h : ∃ p ∈ db.personals, p.entity_id = r.entity_id
  · rw [if_pos ((filterHead_isSome _ _).mpr h), if_pos h]
  · rw [if_neg (fun hc => h ((filterHead_isSome _ _).mp hc)), if_neg h]

lemma routeRecord_snd (db : DBState) (r : PersonalInfoData) :
    (routeRecord db r).2 = r := by
  unfold routeRecord; split <;> rfl

lemma routeRecord_fst (db : DBState) (r : PersonalInfoData) :
    (routeRecord db r).1 = "change_data" ∨ (routeRecord db r).1 = "add_data" := by
  unfold routeRecord; split
  · exact Or.inl rfl
  · exact Or.inr rfl

lemma callback_db_personals (db : DBState) (m : PersonalInfoData) :
    (callback_db db m).personals = db.personals ++ [mkPersonalRow m] := by
  simp [callback_db]

/-! ## Claim theorems -/

/-- C9: when applying a Changed delta, a scalar field whose incoming value is
null is skipped entirely by the per-field loop body of `callback_change_db`:
whenever the stored Entity row exists the state is returned unchanged — the
stored value (null or not) is untouched and no ChangeLogEntry is appended, so
a non-null-to-null transition at the remote source is never detected,
updated, or logged. -/
theorem null_scalar_value_skipped (db : DBState) (eid k : String) :
    scalarStep db eid k .null = (queryOnePersonal db eid).map (fun _ => db) := by
  unfold scalarStep
  cases queryOnePersonal db eid <;> simp [Except.map]

/-- C10: applying a Changed delta whose entity_id has no stored Entity row
raises `NoResultFound` on the very first `.one()` lookup of the field loop,
so `callback_change_db` returns that error, no commit ever happens, and the
store (rows and both audit tables) is left exactly unchanged. -/
theorem changed_delta_unknown_entity_rejected (db : DBState) (m : PersonalInfoData)
    (h : db.personals.filter (fun p => p.entity_id == m.entity_id) = []) :
    callback_change_db db m = .error .noResultFound ∧ callback_change_db_full db m = db := by
  have h1 : callback_change_db db m = .error .noResultFound := by
    unfold callback_change_db
    have h2 : runScalars m.entity_id db (scalarItems m) = .error .noResultFound := by
      simp [scalarItems, runScalars, scalarStep, queryOnePersonal, h]
    rw [h2]
  refine ⟨h1, ?_⟩
  unfold callback_change_db_full
  rw [h1]

/-- An empty store, used as a concrete witness input. -/
def dbEmpty : DBState := ⟨[], [], [], [], [], [], [], 0⟩

/-- A concrete stored Entity row, used as witness input. -/
def samplePersonal : PersonalInformation :=
  ⟨"X1", none, none, none, none, none, none, none, none, none, none, none, true, none⟩

/-- A store holding exactly the row `samplePersonal`. -/
def dbOne : DBState := ⟨[samplePersonal], [], [], [], [], [], [], 5⟩

/-- A concrete queue message for entity `X1` with empty collections. -/
def mSample : PersonalInfoData :=
  ⟨"X1", .null, .null, .null, .null, .null, .null, .null, .null, .null, .null, .null,
   true, .null, none, none, none, none⟩

theorem changed_delta_unknown_entity_rejected_witness :
    callback_change_db dbEmpty mSample = .error .noResultFound ∧
      callback_change_db_full dbEmpty mSample = dbEmpty :=
  changed_delta_unknown_entity_rejected dbEmpty mSample rfl

/-- A second stored Entity row (`X2`), used in the C6 witness store. -/
def personalX2 : PersonalInformation :=
  ⟨"X2", none, none, none, none, none, none, none, none, none, none, none, true, none⟩

/-- `X1`'s stored picture, id 1. -/
def picX1 : PictureRow := ⟨1, "X1", "u1", "b1"⟩

/-- `X2`'s stored picture, id 2 — the primary key a `Changed` delta for `X1`
can collide with. -/
def picX2 : PictureRow := ⟨2, "X2", "u2", "b2"⟩

/-- A store with entities `X1`, `X2` and one picture each. -/
def dbC6 : DBState := ⟨[samplePersonal, personalX2], [], [], [], [picX1, picX2], [], [], 0⟩

/-- A `Changed` message for `X1` whose pictures list keeps id 1 and adds
id 2, which is already stored under `X2`: the insert collides at commit. -/
def mC6 : PersonalInfoData :=
  ⟨"X1", .null, .null, .null, .null, .null, .null, .null, .null, .null, .null, .null,
   true, .null, none, none, none, some [⟨"X1", 1, "u1", "b1"⟩, ⟨"X1", 2, "u2", "b2"⟩]⟩

/-- A `Changed` message for `X1` identical to its stored state: commits. -/
def mC6b : PersonalInfoData :=
  ⟨"X1", .null, .null, .null, .null, .null, .null, .null, .null, .null, .null, .null,
   true, .null, none, none, none, some [⟨"X1", 1, "u1", "b1"⟩]⟩

/-- The uncommitted session state of `callback_change_db dbC6 mC6`: it holds
a second row with picture_id 2, so the commit raises `IntegrityError`. -/
def sC6 : DBState := (callback_change_db dbC6 mC6).toOption.getD dbEmpty

/-- C6: every delta is applied in a single transaction by
`handle_database_transaction`.  For a `Changed` delta whose callback builds
the candidate session state `s`: if committing `s` violates a primary-key
constraint the whole transaction is rolled back silently and the store is
exactly the initial one — no partial update, delete, `ChangeLogEntry` or
`LogEntry` of that delta survives — and otherwise `s` is installed whole.
For an `Unseen` delta the same rollback happens on any violation of the
committed candidate, in particular whenever the message's entity_id is
already stored (two concurrently produced "new" deltas).  Both apply
functions are total, so the consumer loop continues with the next
message. -/
theorem duplicate_unseen_delta_rolled_back (db : DBState) (m : PersonalInfoData) :
    (∀ s, callback_change_db db m = .ok s → ¬ integrityOk s →
      callback_change_db_full db m = db) ∧
    (∀ s, callback_change_db db m = .ok s → integrityOk s →
      callback_change_db_full db m = s) ∧
    (¬ integrityOk (callback_db db m) → callback_db_full db m = db) ∧
    (m.entity_id ∈ db.personals.map (fun p => p.entity_id) →
      callback_db_full db m = db) := by
  refine ⟨?_, ?_, ?_, ?_⟩
  · intro s hs hbad
    unfold callback_change_db_full
    rw [hs]
    show (if integrityOk s then s else db) = db
    rw [if_neg hbad]
  · intro s hs hok
    unfold callback_change_db_full
    rw [hs]
    show (if integrityOk s then s else db) = s
    rw [if_pos hok]
  · intro hbad
    unfold callback_db_full handle_database_transaction
    rw [if_neg hbad]
  · intro h
    unfold callback_db_full handle_database_transaction
    rw [if_neg]
    intro hok
    have h1 := hok.1
    rw [callback_db_personals, List.map_append] at h1
    rcases List.nodup_append.mp h1 with ⟨-, -, hdisj⟩
    exact hdisj h (by simp [mkPersonalRow])

theorem duplicate_unseen_delta_rolled_back_witness :
    callback_change_db_full dbC6 mC6 = dbC6 ∧
    callback_change_db_full dbC6 mC6b = dbC6 ∧
    callback_db_full dbOne mSample = dbOne :=
  ⟨(duplicate_unseen_delta_rolled_back dbC6 mC6).1 sC6 rfl (by decide),
   (duplicate_unseen_delta_rolled_back dbC6 mC6b).2.1 dbC6 rfl (by decide),
   (duplicate_unseen_delta_rolled_back dbOne mSample).2.2.2
     (by simp [dbOne, samplePersonal, mSample])⟩

/-- C8: the classify-and-publish loop routes every fetched record by the
existence of a stored Entity row with its entity_id — to the `change_data`
queue when one exists, to `add_data` otherwise — publishing in both cases
the full record (all scalar fields and all four collection arrays, modelled
losslessly by the record itself), and hands nothing but those two kinds of
publishes to the transport, so Vanished deltas never reach the publisher. -/
theorem classify_publish_routing (db : DBState) (fetched : List PersonalInfoData) :
    (retrieve_data db fetched).1 =
      fetched.map (fun r =>
        ((if ∃ p ∈ db.personals, p.entity_id = r.entity_id then "change_data" else "add_data"),
         r)) ∧
    (∀ a ∈ (retrieve_data db fetched).1, a.2 ∈ fetched) ∧
    (∀ a ∈ (retrieve_data db fetched).1, a.1 = "change_data" ∨ a.1 = "add_data") := by
  have hfst : (retrieve_data db fetched).1 = fetched.map (routeRecord db) := rfl
  refine ⟨?_, ?_, ?_⟩
  · rw [hfst]
    exact List.map_congr_left (fun r _ => routeRecord_eq db r)
  · intro a ha
    rw [hfst] at ha
    rcases List.mem_map.mp ha with ⟨r, hr, hmap⟩
    rw [← hmap, routeRecord_snd]
    exact hr
  · intro a ha
    rw [hfst] at ha
    rcases List.mem_map.mp ha with ⟨r, hr, hmap⟩
    rw [← hmap]
    exact routeRecord_fst db r

lemma addAllPhase_rows_spec (desc : TableDesc) (eid : String) (ds : List CollItem) :
    ∀ n, (addAllPhase desc eid ds n).1.map (fun r => (r.entity_id, r.attrs)) =
      ds.map (fun d => (eid, d.attrs)) := by
  induction ds with
  | nil => intro n; rfl
  | cons d ds ih => intro n; simp [addAllPhase, ih (n + 1)]

lemma addAllPhase_logs (desc : TableDesc) (eid : String) (ds : List CollItem) :
    ∀ n, (addAllPhase desc eid ds n).2.1 = ds.map (mkAddLogAll desc eid) := by
  induction ds with
  | nil => intro n; rfl
  | cons d ds ih => intro n; simp [addAllPhase, ih (n + 1)]

lemma addAllPhase_counter (desc : TableDesc) (eid : String) (ds : List CollItem) :
    ∀ n, (addAllPhase desc eid ds n).2.2 = n + ds.length := by
  induction ds with
  | nil => intro n; simp [addAllPhase]
  | cons d ds ih => intro n; simp [addAllPhase, ih (n + 1)]; omega

lemma insertPicsAll_rows (eid : String) (ps : List PicPayload) :
    (insertPicsAll eid ps).1 =
      ps.map (fun p => (⟨p.picture_id, eid, p.picture_url, p.picture_base64⟩ : PictureRow)) := by
  induction ps with
  | nil => rfl
  | cons p ps ih => simp [insertPicsAll, ih]

lemma insertPicsAll_logs (eid : String) (ps : List PicPayload) :
    (insertPicsAll eid ps).2 =
      ps.map (fun p => mkPicAddLog eid p.picture_id p.picture_url p.picture_base64) := by
  induction ps with
  | nil => rfl
  | cons p ps ih => simp [insertPicsAll, ih]

/-- C4: applying an Unseen (`add_data`) delta inserts exactly one Entity row
built from the record's scalar fields, one collection row per item of each
non-null sub-collection (arrest warrants, pictures, languages,
nationalities), and appends exactly `1 + (total collection items)` LogEntry
rows, all with action `Added` — one per inserted row, each carrying that
row's column snapshot (`personalSnap`, `mkAddLogAll`, `mkPicAddLog`). -/
theorem unseen_delta_insert_and_logs (db : DBState) (m : PersonalInfoData) :
    (callback_db db m).personals = db.personals ++ [mkPersonalRow m] ∧
    (callback_db db m).warrants.map (fun r => (r.entity_id, r.attrs)) =
      db.warrants.map (fun r => (r.entity_id, r.attrs)) ++
        (m.arrest_warrants.getD []).map (fun d => (m.entity_id, d.attrs)) ∧
    (callback_db db m).languages.map (fun r => (r.entity_id, r.attrs)) =
      db.languages.map (fun r => (r.entity_id, r.attrs)) ++
        (m.languages_spoken_ids.getD []).map (fun d => (m.entity_id, d.attrs)) ∧
    (callback_db db m).nationalities.map (fun r => (r.entity_id, r.attrs)) =
      db.nationalities.map (fun r => (r.entity_id, r.attrs)) ++
        (m.nationalities.getD []).map (fun d => (m.entity_id, d.attrs)) ∧
    (callback_db db m).pictures = db.pictures ++
      (m.pictures.getD []).map
        (fun p => (⟨p.picture_id, m.entity_id, p.picture_url, p.picture_base64⟩ : PictureRow)) ∧
    (callback_db db m).log = db.log ++
      [(⟨m.entity_id, "personal_informations", "Added", personalSnap m, none⟩ : LogRow)] ++
      (m.arrest_warrants.getD []).map (mkAddLogAll arrestWarrantDesc m.entity_id) ++
      (m.pictures.getD []).map
        (fun p => mkPicAddLog m.entity_id p.picture_id p.picture_url p.picture_base64) ++
      (m.languages_spoken_ids.getD []).map (mkAddLogAll languageDesc m.entity_id) ++
      (m.nationalities.getD []).map (mkAddLogAll nationalityDesc m.entity_id) ∧
    (callback_db db m).log.length = db.log.length + 1 +
      ((m.arrest_warrants.getD []).length + (m.pictures.getD []).length +
        (m.languages_spoken_ids.getD []).length + (m.nationalities.getD []).length) ∧
    (callback_db db m).change_log = db.change_log ∧
    ∀ L ∈ (callback_db db m).log.drop db.log.length, L.action = "Added" := by
  have hw := addAllPhase_rows_spec arrestWarrantDesc m.entity_id (m.arrest_warrants.getD [])
  have hl := addAllPhase_rows_spec languageDesc m.entity_id (m.languages_spoken_ids.getD [])
  have hn := addAllPhase_rows_spec nationalityDesc m.entity_id (m.nationalities.getD [])
  refine ⟨?_, ?_, ?_, ?_, ?_, ?_, ?_, ?_, ?_⟩
  · simp [callback_db]
  · simp [callback_db, hw]
  · simp [callback_db, hl]
  · simp [callback_db, hn]
  · simp [callback_db, insertPicsAll_rows]
  · simp [callback_db, addAllPhase_logs, insertPicsAll_logs]
  · simp [callback_db, addAllPhase_logs, insertPicsAll_logs]; omega
  · simp [callback_db]
  · intro L hL
    have hlog : (callback_db db m).log = db.log ++
        ([(⟨m.entity_id, "personal_informations", "Added", personalSnap m, none⟩ : LogRow)] ++
          ((m.arrest_warrants.getD []).map (mkAddLogAll arrestWarrantDesc m.entity_id) ++
            ((m.pictures.getD []).map
              (fun p => mkPicAddLog m.entity_id p.picture_id p.picture_url p.picture_base64) ++
              ((m.languages_spoken_ids.getD []).map (mkAddLogAll languageDesc m.entity_id) ++
                (m.nationalities.getD []).map (mkAddLogAll nationalityDesc m.entity_id))))) := by
      simp [callback_db, addAllPhase_logs, insertPicsAll_logs]
    rw [hlog, List.drop_left] at hL
    simp only [List.mem_append, List.mem_singleton, List.mem_map] at hL
    rcases hL with (rfl | ⟨d, -, rfl⟩ | ⟨p, -, rfl⟩ | ⟨d, -, rfl⟩ | ⟨d, -, rfl⟩) <;> rfl

/-- The pointwise effect of the vanished sweep on one stored row. -/
def deactVanished (fetched : List String) (p : PersonalInformation) : PersonalInformation :=
  if p.entity_id ∉ fetched ∧ p.is_active = true then { p with is_active := false } else p

/-- Whether the sweep produces a `change_log` entry for a stored row. -/
def vanishCond (fetched : List String) (p : PersonalInformation) : Bool :=
  decide (p.entity_id ∉ fetched) && p.is_active

lemma deactVanished_entity_id (fetched : List String) (p : PersonalInformation) :
    (deactVanished fetched p).entity_id = p.entity_id := by
  unfold deactVanished; split <;> rfl

lemma updateFirstPersonal_append (pre l : List PersonalInformation) (eid : String)
    (h : ∀ p ∈ pre, p.entity_id ≠ eid) :
    updateFirstPersonal (pre ++ l) eid = pre ++ updateFirstPersonal l eid := by
  induction pre with
  | nil => rfl
  | cons p ps ih =>
    have hp : (p.entity_id == eid) = false := by
      simp only [beq_eq_false_iff_ne, ne_eq]
      exact h p (List.mem_cons_self p ps)
    simp only [List.cons_append, updateFirstPersonal, hp, Bool.false_eq_true, if_false,
      List.cons.injEq, true_and]
    exact ih (fun q hq => h q (List.mem_cons_of_mem p hq))

lemma filter_eq_single_of_unique {α : Type} (l : List α) (q : α → Bool) (r : α)
    (hnd : l.Nodup) (hr : r ∈ l) (hq : ∀ x ∈ l, (q x = true ↔ x = r)) :
    l.filter q = [r] := by
  induction l with
  | nil => cases hr
  | cons a as ih =>
    rcases List.mem_cons.mp hr with rfl | hr'
    · rw [List.filter_cons_of_pos ((hq r (List.mem_cons_self r as)).mpr rfl)]
      have hnil : as.filter q = [] := by
        apply List.filter_eq_nil_iff.mpr
        intro x hx hqx
        have hxr := (hq x (List.mem_cons_of_mem r hx)).mp hqx
        subst hxr
        exact (List.nodup_cons.mp hnd).1 hx
      rw [hnil]
    · have hna : a ∉ as ∧ as.Nodup := List.nodup_cons.mp hnd
      have ha : ¬ q a = true := by
        intro hqa
        have := (hq a (List.mem_cons_self a as)).mp hqa
        subst this
        exact hna.1 hr'
      rw [List.filter_cons_of_neg ha]
      exact ih hna.2 hr' (fun x hx => hq x (List.mem_cons_of_mem a hx))

lemma vanishSweep_spec (fetched : List String) :
    ∀ (rows pre : List PersonalInformation) (ls ns ws : List CollRow)
      (pcs : List PictureRow) (cl : List ChangeLogRow) (lg : List LogRow) (n : Nat),
    ((pre ++ rows).map (fun p => p.entity_id)).Nodup →
    vanishSweep fetched ⟨pre ++ rows, ls, ns, ws, pcs, cl, lg, n⟩
        (rows.map (fun p => p.entity_id)) =
      ⟨pre ++ rows.map (deactVanished fetched), ls, ns, ws, pcs,
        cl ++ (rows.filter (vanishCond fetched)).map (fun p => vanishEntry p.entity_id),
        lg, n⟩ := by
  intro rows
  induction rows with
  | nil =>
    intro pre ls ns ws pcs cl lg n _
    simp [vanishSweep]
  | cons r rs ih =>
    intro pre ls ns ws pcs cl lg n hnd
    have hrpre : r.entity_id ∉ pre.map (fun p => p.entity_id) := by
      rw [List.map_append] at hnd
      rcases List.nodup_append.mp hnd with ⟨-, -, hdisj⟩
      intro hmem
      exact hdisj hmem (by simp)
    have hprefilter : pre.filter (fun p => p.entity_id == r.entity_id) = [] := by
      apply List.filter_eq_nil_iff.mpr
      intro p hp hpe
      exact hrpre (List.mem_map.mpr ⟨p, hp, by simpa using hpe⟩)
    simp only [List.map_cons, vanishSweep]
    by_cases hf : r.entity_id ∈ fetched
    · have hstep : sweepStep fetched ⟨pre ++ r :: rs, ls, ns, ws, pcs, cl, lg, n⟩ r.entity_id =
          ⟨pre ++ r :: rs, ls, ns, ws, pcs, cl, lg, n⟩ := by
        unfold sweepStep
        rw [if_pos hf]
      have hdr : deactVanished fetched r = r := by
        unfold deactVanished
        rw [if_neg]
        rintro ⟨hnot, -⟩
        exact hnot hf
      have hvc : vanishCond fetched r = false := by
        unfold vanishCond
        simp [hf]
      have hfc : (r :: rs).filter (vanishCond fetched) = rs.filter (vanishCond fetched) :=
        List.filter_cons_of_neg (by simp [hvc])
      rw [hstep]
      have hre : pre ++ r :: rs = (pre ++ [r]) ++ rs := by simp
      rw [hre, ih (pre ++ [r]) ls ns ws pcs cl lg n (by simpa using hnd)]
      simp [hdr, hfc]
    · have hfilter : (pre ++ r :: rs).filter (fun p => p.entity_id == r.entity_id) =
          r :: (rs.filter (fun p => p.entity_id == r.entity_id)) := by
        rw [List.filter_append, hprefilter, List.nil_append,
          List.filter_cons_of_pos (by simp)]
      by_cases ha : r.is_active = true
      · have hdr : deactVanished fetched r = { r with is_active := false } := by
          unfold deactVanished
          rw [if_pos ⟨hf, ha⟩]
        have hvc : vanishCond fetched r = true := by
          unfold vanishCond
          simp [hf, ha]
        have hfc : (r :: rs).filter (vanishCond fetched) =
            r :: rs.filter (vanishCond fetched) :=
          List.filter_cons_of_pos hvc
        have hstep : sweepStep fetched ⟨pre ++ r :: rs, ls, ns, ws, pcs, cl, lg, n⟩ r.entity_id =
            ⟨pre ++ deactVanished fetched r :: rs, ls, ns, ws, pcs,
              cl ++ [vanishEntry r.entity_id], lg, n⟩ := by
          unfold sweepStep
          rw [if_neg hf]
          simp only [hfilter, List.head?_cons, ha, if_true]
          have hupd : updateFirstPersonal (pre ++ r :: rs) r.entity_id =
              pre ++ { r with is_active := false } :: rs := by
            rw [updateFirstPersonal_append pre (r :: rs) r.entity_id
              (fun p hp he => hrpre (List.mem_map.mpr ⟨p, hp, he⟩))]
            simp [updateFirstPersonal]
          rw [hupd, hdr]
        rw [hstep]
        have hre : pre ++ deactVanished fetched r :: rs =
            (pre ++ [deactVanished fetched r]) ++ rs := by simp
        rw [hre, ih (pre ++ [deactVanished fetched r]) ls ns ws pcs
          (cl ++ [vanishEntry r.entity_id]) lg n
          (by simpa [deactVanished_entity_id] using hnd)]
        simp [hfc, hdr]
      · have hdr : deactVanished fetched r = r := by
          unfold deactVanished
          rw [if_neg]
          rintro ⟨-, hact⟩
          exact ha hact
        have hvc : vanishCond fetched r = false := by
          unfold vanishCond
          simp [ha]
        have hfc : (r :: rs).filter (vanishCond fetched) = rs.filter (vanishCond fetched) :=
          List.filter_cons_of_neg (by simp [hvc])
        have hstep : sweepStep fetched ⟨pre ++ r :: rs, ls, ns, ws, pcs, cl, lg, n⟩ r.entity_id =
            ⟨pre ++ r :: rs, ls, ns, ws, pcs, cl, lg, n⟩ := by
          unfold sweepStep
          rw [if_neg hf]
          simp only [hfilter, List.head?_cons]
          rw [if_neg ha]
        rw [hstep]
        have hre : pre ++ r :: rs = (pre ++ [r]) ++ rs := by simp
        rw [hre, ih (pre ++ [r]) ls ns ws pcs cl lg n (by simpa using hnd)]
        simp [hdr, hfc]

lemma retrieve_data_state (db : DBState) (fetched : List PersonalInfoData)
    (hnd : (db.personals.map (fun p => p.entity_id)).Nodup) :
    (retrieve_data db fetched).2 =
      { db with
        personals := db.personals.map (deactVanished (fetched.map (fun m => m.entity_id))),
        change_log := db.change_log ++
          (db.personals.filter (vanishCond (fetched.map (fun m => m.entity_id)))).map
            (fun p => vanishEntry p.entity_id) } := by
  obtain ⟨ps, ls, ns, ws, pcs, cl, lg, n⟩ := db
  exact vanishSweep_spec (fetched.map (fun m => m.entity_id)) ps [] ls ns ws pcs cl lg n
    (by simpa using hnd)

/-- C5: for a stored row whose entity_id is absent from the fetch batch, the
producer's sweep (run directly in the producing process): if the row is
active it flips exactly `is_active` to false and appends exactly one
ChangeLogEntry (`vanishEntry`: field `is_active`, old `true`, new `false`)
for that entity; if it is already inactive it leaves the row unchanged and
logs nothing.  In both cases no LogEntry is appended, no collection row is
touched, every stored row is at most `is_active`-flipped (`deactVanished`),
and no publish action carries the absent entity_id — the Vanished path never
reaches the transport. -/
theorem vanished_entity_deactivated (db : DBState) (fetched : List PersonalInfoData)
    (r : PersonalInformation)
    (hnd : (db.personals.map (fun p => p.entity_id)).Nodup)
    (hr : r ∈ db.personals)
    (habs : r.entity_id ∉ fetched.map (fun m => m.entity_id)) :
    ((retrieve_data db fetched).2).languages = db.languages ∧
    ((retrieve_data db fetched).2).nationalities = db.nationalities ∧
    ((retrieve_data db fetched).2).warrants = db.warrants ∧
    ((retrieve_data db fetched).2).pictures = db.pictures ∧
    ((retrieve_data db fetched).2).log = db.log ∧
    ((retrieve_data db fetched).2).personals =
      db.personals.map (deactVanished (fetched.map (fun m => m.entity_id))) ∧
    (r.is_active = true →
      { r with is_active := false } ∈ ((retrieve_data db fetched).2).personals ∧
      (((retrieve_data db fetched).2).change_log.drop db.change_log.length).filter
          (fun e => e.entity_id == r.entity_id) = [vanishEntry r.entity_id]) ∧
    (r.is_active = false →
      r ∈ ((retrieve_data db fetched).2).personals ∧
      (((retrieve_data db fetched).2).change_log.drop db.change_log.length).filter
          (fun e => e.entity_id == r.entity_id) = []) ∧
    (∀ a ∈ (retrieve_data db fetched).1, a.2.entity_id ≠ r.entity_id) := by
  have hst := retrieve_data_state db fetched hnd
  have hdrop : (((retrieve_data db fetched).2).change_log.drop db.change_log.length) =
      (db.personals.filter (vanishCond (fetched.map (fun m => m.entity_id)))).map
        (fun p => vanishEntry p.entity_id) := by
    rw [hst]
    exact List.drop_left _ _
  have hinj := List.inj_on_of_nodup_map hnd
  have hndl : db.personals.Nodup := List.Nodup.of_map _ hnd
  refine ⟨by rw [hst], by rw [hst], by rw [hst], by rw [hst], by rw [hst], by rw [hst],
    ?_, ?_, ?_⟩
  · intro ha
    constructor
    · rw [hst]
      exact List.mem_map.mpr ⟨r, hr, by unfold deactVanished; rw [if_pos ⟨habs, ha⟩]⟩
    · rw [hdrop, List.filter_map, List.filter_filter]
      have hflt : db.personals.filter
          (fun a => ((fun e => e.entity_id == r.entity_id) ∘
              fun p => vanishEntry p.entity_id) a &&
            vanishCond (fetched.map (fun m => m.entity_id)) a) = [r] := by
        apply filter_eq_single_of_unique _ _ r hndl hr
        intro x hx
        simp only [Function.comp, vanishEntry, Bool.and_eq_true, beq_iff_eq]
        constructor
        · rintro ⟨hq1, -⟩
          exact hinj hx hr hq1
        · intro hxr
          subst hxr
          simp [vanishCond, habs, ha]
      rw [hflt]
      rfl
  · intro ha
    constructor
    · rw [hst]
      exact List.mem_map.mpr ⟨r, hr, by
        unfold deactVanished
        rw [if_neg]
        rintro ⟨-, hact⟩
        rw [ha] at hact
        cases hact⟩
    · rw [hdrop, List.filter_map, List.filter_filter]
      have hnil : db.personals.filter
          (fun a => ((fun e => e.entity_id == r.entity_id) ∘
              fun p => vanishEntry p.entity_id) a &&
            vanishCond (fetched.map (fun m => m.entity_id)) a) = [] := by
        apply List.filter_eq_nil_iff.mpr
        intro x hx hq
        simp only [Function.comp, vanishEntry, Bool.and_eq_true, beq_iff_eq] at hq
        rcases hq with ⟨hq1, hq2⟩
        have hxr : x = r := hinj hx hr hq1
        subst hxr
        unfold vanishCond at hq2
        simp only [Bool.and_eq_true, decide_eq_true_eq] at hq2
        rw [ha] at hq2
        exact absurd hq2.2 (by simp)
      rw [hnil]
      rfl
  · intro a ha he
    have h2 : a.2 ∈ fetched := by
      have hfst : (retrieve_data db fetched).1 = fetched.map (routeRecord db) := rfl
      rw [hfst] at ha
      rcases List.mem_map.mp ha with ⟨q, hq, hmap⟩
      rw [← hmap, routeRecord_snd]
      exact hq
    exact habs (by rw [← he]; exact List.mem_map.mpr ⟨a.2, h2, rfl⟩)

theorem vanished_entity_deactivated_witness :
    ((retrieve_data dbOne []).2).languages = dbOne.languages ∧
    ((retrieve_data dbOne []).2).nationalities = dbOne.nationalities ∧
    ((retrieve_data dbOne []).2).warrants = dbOne.warrants ∧
    ((retrieve_data dbOne []).2).pictures = dbOne.pictures ∧
    ((retrieve_data dbOne []).2).log = dbOne.log ∧
    ((retrieve_data dbOne []).2).personals =
      dbOne.personals.map (deactVanished (([] : List PersonalInfoData).map (fun m => m.entity_id))) ∧
    (samplePersonal.is_active = true →
      { samplePersonal with is_active := false } ∈ ((retrieve_data dbOne []).2).personals ∧
      (((retrieve_data dbOne []).2).change_log.drop dbOne.change_log.length).filter
          (fun e => e.entity_id == samplePersonal.entity_id) =
        [vanishEntry samplePersonal.entity_id]) ∧
    (samplePersonal.is_active = false →
      samplePersonal ∈ ((retrieve_data dbOne []).2).personals ∧
      (((retrieve_data dbOne []).2).change_log.drop dbOne.change_log.length).filter
          (fun e => e.entity_id == samplePersonal.entity_id) = []) ∧
    (∀ a ∈ (retrieve_data dbOne []).1, a.2.entity_id ≠ samplePersonal.entity_id) :=
  vanished_entity_deactivated dbOne [] samplePersonal
    (by simp [dbOne, samplePersonal]) (by simp [dbOne]) (by simp)

/-! ## Scalar-field machinery -/

lemma queryOne_ok_iff {db : DBState} {eid : String} {S : PersonalInformation} :
    queryOnePersonal db eid = .ok S ↔
      db.personals.filter (fun p => p.entity_id == eid) = [S] := by
  unfold queryOnePersonal
  cases h : db.personals.filter (fun p => p.entity_id == eid) with
  | nil => simp
  | cons a l =>
    cases l with
    | nil => simp
    | cons b l' => simp

lemma queryOne_entity_id {db : DBState} {eid : String} {S : PersonalInformation}
    (h : queryOnePersonal db eid = .ok S) : S.entity_id = eid := by
  have hf := queryOne_ok_iff.mp h
  have : S ∈ db.personals.filter (fun p => p.entity_id == eid) := by
    rw [hf]; exact List.mem_singleton_self S
  simpa using (List.mem_filter.mp this).2

lemma queryOne_congr {db db' : DBState} (eid : String)
    (h : db.personals = db'.personals) :
    queryOnePersonal db eid = queryOnePersonal db' eid := by
  unfold queryOnePersonal
  rw [h]

lemma scalarEq_refl (v : Scalar) : scalarEq v v = true := by
  cases v <;> simp [scalarEq]

lemma setF_entity_id {S : PersonalInformation} {f : PField} {v : Scalar}
    (hf : f ≠ PField.entity_id) : (setF S f v).entity_id = S.entity_id := by
  cases f <;> first | exact absurd rfl hf | rfl | (cases v <;> rfl)

lemma getF_setF_frame {S : PersonalInformation} {f f' : PField} {v : Scalar}
    (h : f' ≠ f) : getF (setF S f v) f' = getF S f' := by
  cases f <;> cases f' <;> first | exact absurd rfl h | rfl | (cases v <;> rfl)

lemma getF_setF_self {S : PersonalInformation} {f : PField} {v : Scalar}
    (h1 : f ≠ PField.entity_id) (h2 : f ≠ PField.is_active) :
    getF (setF S f v) f = some v := by
  cases f <;> first | exact absurd rfl h1 | exact absurd rfl h2 | rfl

lemma getF_setF_is_active {S : PersonalInformation} {b : Bool} :
    getF (setF S .is_active (.b b)) .is_active = some (.b b) := rfl

lemma queryOne_applyFieldUpdate {db : DBState} {eid : String} {S : PersonalInformation}
    {k : String} {f : PField} {v' : Scalar}
    (hq : queryOnePersonal db eid = .ok S) (hf : f ≠ PField.entity_id) :
    queryOnePersonal (applyFieldUpdate db eid S k f v') eid = .ok (setF S f v') := by
  have hfl := queryOne_ok_iff.mp hq
  apply queryOne_ok_iff.mpr
  show (db.personals.map (fun r => if r.entity_id == eid then setF r f v' else r)).filter
      (fun p => p.entity_id == eid) = [setF S f v']
  rw [List.filter_map]
  have hcong : db.personals.filter
      ((fun p => p.entity_id == eid) ∘ (fun r => if r.entity_id == eid then setF r f v' else r)) =
      db.personals.filter (fun p => p.entity_id == eid) := by
    apply List.filter_congr
    intro r _
    simp only [Function.comp]
    by_cases hr : (r.entity_id == eid) = true
    · rw [if_pos hr]
      rw [show (setF r f v').entity_id = r.entity_id from setF_entity_id hf]
    · rw [if_neg hr]
  rw [hcong, hfl]
  have hS : (S.entity_id == eid) = true := by
    simp [queryOne_entity_id hq]
  show [if S.entity_id == eid then setF S f v' else S] = [setF S f v']
  rw [if_pos hS]

lemma scalarStep_ok_elim {db : DBState} {eid k : String} {v : Jscalar} {db' : DBState}
    (h : scalarStep db eid k v = .ok db') :
    ∃ S, queryOnePersonal db eid = .ok S ∧
      ((v = .null ∧ db' = db) ∨
       (v ≠ .null ∧ ∃ v' f, coerceValue k v = .ok v' ∧ fieldOfKey k = some f ∧
         ((pyNe (getF S f) v' = false ∧ db' = db) ∨
          (pyNe (getF S f) v' = true ∧ db' = applyFieldUpdate db eid S k f v')))) := by
  unfold scalarStep at h
  cases hq : queryOnePersonal db eid with
  | error e => rw [hq] at h; cases h
  | ok S =>
    rw [hq] at h
    replace h : (if v = Jscalar.null then Except.ok db
        else match coerceValue k v with
          | .error e => Except.error e
          | .ok v' =>
            match fieldOfKey k with
            | none => Except.error Err.attributeError
            | some fld =>
              if pyNe (getF S fld) v' = true then
                Except.ok (applyFieldUpdate db eid S k fld v')
              else Except.ok db) = Except.ok db' := h
    refine ⟨S, rfl, ?_⟩
    by_cases hv : v = Jscalar.null
    · rw [if_pos hv] at h
      cases h
      exact Or.inl ⟨hv, rfl⟩
    · rw [if_neg hv] at h
      refine Or.inr ⟨hv, ?_⟩
      cases hc : coerceValue k v with
      | error e => rw [hc] at h; cases h
      | ok v' =>
        rw [hc] at h
        cases hfk : fieldOfKey k with
        | none => rw [hfk] at h; cases h
        | some f =>
          rw [hfk] at h
          replace h : (if pyNe (getF S f) v' = true then
              Except.ok (applyFieldUpdate db eid S k f v')
            else Except.ok db) = Except.ok db' := h
          refine ⟨v', f, rfl, rfl, ?_⟩
          by_cases hne : pyNe (getF S f) v' = true
          · rw [if_pos hne] at h
            cases h
            exact Or.inr ⟨hne, rfl⟩
          · rw [if_neg hne] at h
            cases h
            exact Or.inl ⟨Bool.eq_false_iff.mpr hne, rfl⟩

lemma scalarStep_entity_id_noop {db : DBState} {eid : String} {S : PersonalInformation}
    (hq : queryOnePersonal db eid = .ok S) :
    scalarStep db eid "entity_id" (.s eid) = .ok db := by
  have hc : coerceValue "entity_id" (.s eid) = .ok (.s eid) := rfl
  have hp : pyNe (getF S PField.entity_id) (.s eid) = false := by
    simp [getF, pyNe, scalarEq, queryOne_entity_id hq]
  simp [scalarStep, hq, hc, hp, fieldOfKey]

lemma scalarStep_eq {db : DBState} {eid k : String} {v : Jscalar} {S : PersonalInformation}
    {v' : Scalar} {f : PField}
    (hq : queryOnePersonal db eid = .ok S) (hv : v ≠ Jscalar.null)
    (hc : coerceValue k v = .ok v') (hfk : fieldOfKey k = some f) :
    scalarStep db eid k v =
      if pyNe (getF S f) v' = true then .ok (applyFieldUpdate db eid S k f v')
      else .ok db := by
  simp only [scalarStep, hq, hc, hfk]
  rw [if_neg hv]

lemma scalarStep_null {db : DBState} {eid k : String} {S : PersonalInformation}
    (hq : queryOnePersonal db eid = .ok S) :
    scalarStep db eid k Jscalar.null = .ok db := by
  simp [scalarStep, hq]

/-- The per-field loop body is a no-op on this row: the incoming value is
null, or it coerces to a value Python-equal to the stored one. -/
def agreeStep (S : PersonalInformation) (kv : String × Jscalar) : Prop :=
  kv.2 = Jscalar.null ∨
  ∃ f v', fieldOfKey kv.1 = some f ∧ coerceValue kv.1 kv.2 = .ok v' ∧
    pyNe (getF S f) v' = false

lemma scalarStep_noop_of_agree {db : DBState} {eid : String} {S : PersonalInformation}
    {kv : String × Jscalar}
    (hq : queryOnePersonal db eid = .ok S) (ha : agreeStep S kv) :
    scalarStep db eid kv.1 kv.2 = .ok db := by
  rcases ha with hnull | ⟨f, v', hfk, hc, hne⟩
  · rw [hnull]; exact scalarStep_null hq
  · by_cases hv : kv.2 = Jscalar.null
    · rw [hv]; exact scalarStep_null hq
    · rw [scalarStep_eq hq hv hc hfk]
      simp [hne]

lemma runScalars_ok_cons {eid : String} {db : DBState} {k : String} {v : Jscalar}
    {L : List (String × Jscalar)} {db₁ : DBState}
    (h : runScalars eid db ((k, v) :: L) = .ok db₁) :
    ∃ db', scalarStep db eid k v = .ok db' ∧ runScalars eid db' L = .ok db₁ := by
  simp only [runScalars] at h
  cases hs : scalarStep db eid k v with
  | error e => rw [hs] at h; cases h
  | ok db' =>
    rw [hs] at h
    exact ⟨db', rfl, h⟩

lemma runScalars_noop_of_agree {eid : String} :
    ∀ (L : List (String × Jscalar)) (db : DBState) (S : PersonalInformation),
    queryOnePersonal db eid = .ok S → (∀ kv ∈ L, agreeStep S kv) →
    runScalars eid db L = .ok db := by
  intro L
  induction L with
  | nil => intro db S _ _; rfl
  | cons kv L ih =>
    intro db S hq ha
    obtain ⟨k, v⟩ := kv
    have hstep : scalarStep db eid k v = .ok db :=
      scalarStep_noop_of_agree hq (ha (k, v) (List.mem_cons_self _ _))
    simp only [runScalars, hstep]
    exact ih db S hq (fun kv hkv => ha kv (List.mem_cons_of_mem _ hkv))

lemma runScalars_prefix_noop {eid : String} :
    ∀ (L₁ rest : List (String × Jscalar)) (db : DBState) (S : PersonalInformation),
    queryOnePersonal db eid = .ok S → (∀ kv ∈ L₁, agreeStep S kv) →
    runScalars eid db (L₁ ++ rest) = runScalars eid db rest := by
  intro L₁
  induction L₁ with
  | nil => intro rest db S _ _; rfl
  | cons kv L ih =>
    intro rest db S hq ha
    obtain ⟨k, v⟩ := kv
    have hstep : scalarStep db eid k v = .ok db :=
      scalarStep_noop_of_agree hq (ha (k, v) (List.mem_cons_self _ _))
    simp only [List.cons_append, runScalars, hstep]
    exact ih rest db S hq (fun kv hkv => ha kv (List.mem_cons_of_mem _ hkv))

lemma agreeStep_frame {S : PersonalInformation} {f : PField} {v' : Scalar}
    {kv : String × Jscalar}
    (ha : agreeStep S kv) (hne : fieldOfKey kv.1 ≠ some f) :
    agreeStep (setF S f v') kv := by
  rcases ha with h | ⟨f₀, w, hfk, hc, hp⟩
  · exact Or.inl h
  · refine Or.inr ⟨f₀, w, hfk, hc, ?_⟩
    have hne0 : f₀ ≠ f := by
      intro he
      exact hne (by rw [hfk, he])
    rw [getF_setF_frame hne0]
    exact hp

lemma runScalars_one_diff {eid : String} (L₁ L₂ : List (String × Jscalar))
    (k : String) (v : Jscalar) (db : DBState) (S : PersonalInformation)
    (f : PField) (v' : Scalar)
    (hq : queryOnePersonal db eid = .ok S)
    (h₁ : ∀ kv ∈ L₁, agreeStep S kv)
    (h₂ : ∀ kv ∈ L₂, agreeStep S kv)
    (h₂f : ∀ kv ∈ L₂, fieldOfKey kv.1 ≠ some f)
    (hvn : v ≠ Jscalar.null)
    (hfk : fieldOfKey k = some f) (hfe : f ≠ PField.entity_id)
    (hc : coerceValue k v = .ok v')
    (hne : pyNe (getF S f) v' = true) :
    runScalars eid db (L₁ ++ (k, v) :: L₂) = .ok (applyFieldUpdate db eid S k f v') := by
  rw [runScalars_prefix_noop L₁ _ db S hq h₁]
  simp only [runScalars]
  rw [scalarStep_eq hq hvn hc hfk, if_pos hne]
  exact runScalars_noop_of_agree L₂ _ (setF S f v')
    (queryOne_applyFieldUpdate hq hfe)
    (fun kv hkv => agreeStep_frame (h₂ kv hkv) (h₂f kv hkv))

lemma runScalars_preserves {eid : String} (f : PField) :
    ∀ (L : List (String × Jscalar)) (db dbS : DBState) (S : PersonalInformation),
    (∀ kv ∈ L, fieldOfKey kv.1 ≠ some f) →
    (∀ kv ∈ L, fieldOfKey kv.1 ≠ some PField.entity_id) →
    queryOnePersonal db eid = .ok S →
    runScalars eid db L = .ok dbS →
    ∃ S', queryOnePersonal dbS eid = .ok S' ∧ getF S' f = getF S f := by
  intro L
  induction L with
  | nil =>
    intro db dbS S _ _ hq h
    have hds : db = dbS := by
      have h' : Except.ok (ε := Err) db = .ok dbS := h
      injection h'
    subst hds
    exact ⟨S, hq, rfl⟩
  | cons kv L ih =>
    intro db dbS S hf he hq h
    obtain ⟨k, v⟩ := kv
    obtain ⟨db', hs, hrest⟩ := runScalars_ok_cons h
    obtain ⟨S₀, hq₀, hcase⟩ := scalarStep_ok_elim hs
    have hSS : S₀ = S := by
      rw [hq] at hq₀
      injection hq₀ with hh
      exact hh.symm
    subst hSS
    have hfL : ∀ kv ∈ L, fieldOfKey kv.1 ≠ some f :=
      fun kv hkv => hf kv (List.mem_cons_of_mem _ hkv)
    have heL : ∀ kv ∈ L, fieldOfKey kv.1 ≠ some PField.entity_id :=
      fun kv hkv => he kv (List.mem_cons_of_mem _ hkv)
    rcases hcase with ⟨-, hdb⟩ | ⟨-, v', f', hc, hfk, hsub⟩
    · exact ih db dbS S₀ hfL heL hq (hdb ▸ hrest)
    · rcases hsub with ⟨-, hdb⟩ | ⟨-, hdb⟩
      · exact ih db dbS S₀ hfL heL hq (hdb ▸ hrest)
      · rw [hdb] at hrest
        have hf' : f' ≠ PField.entity_id := by
          intro hh
          exact he (k, v) (List.mem_cons_self _ _) (by rw [hfk, hh])
        have hq' := @queryOne_applyFieldUpdate db eid S₀ k f' v' hq hf'
        obtain ⟨S', hq'', hg⟩ := ih _ dbS (setF S₀ f' v') hfL heL hq' hrest
        refine ⟨S', hq'', ?_⟩
        rw [hg]
        have hff' : f ≠ f' := by
          intro hh
          exact hf (k, v) (List.mem_cons_self _ _) (by rw [hfk, hh])
        exact getF_setF_frame hff'

lemma coerceValue_b_inv {k : String} {b : Bool} {v' : Scalar}
    (h : coerceValue k (.b b) = .ok v') : v' = .b b := by
  replace h : (if (k == "date_of_birth") = true then Except.error Err.typeError
      else Except.ok (Scalar.b b)) = Except.ok v' := h
  by_cases hk : (k == "date_of_birth") = true
  · rw [if_pos hk] at h; cases h
  · rw [if_neg hk] at h
    injection h with hh
    exact hh.symm

lemma runScalars_idem {eid : String} :
    ∀ (L : List (String × Jscalar)) (db dbS db₂ : DBState),
    List.Pairwise (fun a b => fieldOfKey a.1 ≠ fieldOfKey b.1) L →
    (∀ kv ∈ L, fieldOfKey kv.1 ≠ some PField.entity_id) →
    (∀ kv ∈ L, fieldOfKey kv.1 = some PField.is_active → ∃ b, kv.2 = Jscalar.b b) →
    runScalars eid db L = .ok dbS →
    db₂.personals = dbS.personals →
    runScalars eid db₂ L = .ok db₂ := by
  intro L
  induction L with
  | nil => intro db dbS db₂ _ _ _ _ _; rfl
  | cons kv L ih =>
    intro db dbS db₂ hpw he hb h hp
    obtain ⟨k, v⟩ := kv
    obtain ⟨hd, hpwL⟩ := List.pairwise_cons.mp hpw
    have heL : ∀ kv ∈ L, fieldOfKey kv.1 ≠ some PField.entity_id :=
      fun kv hkv => he kv (List.mem_cons_of_mem _ hkv)
    have hbL : ∀ kv ∈ L, fieldOfKey kv.1 = some PField.is_active → ∃ b, kv.2 = Jscalar.b b :=
      fun kv hkv => hb kv (List.mem_cons_of_mem _ hkv)
    obtain ⟨db', hs, hrest⟩ := runScalars_ok_cons h
    obtain ⟨S, hq, hcase⟩ := scalarStep_ok_elim hs
    rcases hcase with ⟨hvnull, hdb⟩ | ⟨hvn, v', f', hc, hfk, hsub⟩
    · rw [hdb] at hrest
      obtain ⟨S_S, hqS, -⟩ := runScalars_preserves PField.entity_id L db dbS S heL heL hq hrest
      have hq₂ : queryOnePersonal db₂ eid = .ok S_S := by
        rw [queryOne_congr eid hp]; exact hqS
      subst hvnull
      have hstep₂ : scalarStep db₂ eid k Jscalar.null = .ok db₂ := scalarStep_null hq₂
      simp only [runScalars, hstep₂]
      exact ih db dbS db₂ hpwL heL hbL hrest hp
    · have hfL : ∀ kv ∈ L, fieldOfKey kv.1 ≠ some f' := by
        intro kv hkv hh
        exact hd kv hkv (by rw [hfk, hh])
      rcases hsub with ⟨hne0, hdb⟩ | ⟨hne1, hdb⟩
      · rw [hdb] at hrest
        obtain ⟨S_S, hqS, hg⟩ := runScalars_preserves f' L db dbS S hfL heL hq hrest
        have hq₂ : queryOnePersonal db₂ eid = .ok S_S := by
          rw [queryOne_congr eid hp]; exact hqS
        have hstep₂ : scalarStep db₂ eid k v = .ok db₂ := by
          rw [scalarStep_eq hq₂ hvn hc hfk, hg]
          simp [hne0]
        simp only [runScalars, hstep₂]
        exact ih db dbS db₂ hpwL heL hbL hrest hp
      · rw [hdb] at hrest
        have hf' : f' ≠ PField.entity_id := by
          intro hh
          exact he (k, v) (List.mem_cons_self _ _) (by rw [hfk, hh])
        have hq' := @queryOne_applyFieldUpdate db eid S k f' v' hq hf'
        obtain ⟨S_S, hqS, hg⟩ := runScalars_preserves f' L _ dbS (setF S f' v') hfL heL hq' hrest
        have hsv : getF (setF S f' v') f' = some v' := by
          by_cases hia : f' = PField.is_active
          · subst hia
            obtain ⟨b, hvb⟩ := hb (k, v) (List.mem_cons_self _ _) hfk
            have hvb2 : v = Jscalar.b b := hvb
            rw [hvb2] at hc
            rw [coerceValue_b_inv hc]
            exact getF_setF_is_active
          · exact getF_setF_self hf' hia
        have hq₂ : queryOnePersonal db₂ eid = .ok S_S := by
          rw [queryOne_congr eid hp]; exact hqS
        have hstep₂ : scalarStep db₂ eid k v = .ok db₂ := by
          rw [scalarStep_eq hq₂ hvn hc hfk, hg, hsv]
          simp [pyNe, scalarEq_refl]
        simp only [runScalars, hstep₂]
        exact ih _ dbS db₂ hpwL heL hbL hrest hp

lemma scalarStep_tables {db : DBState} {eid k : String} {v : Jscalar} {db' : DBState}
    (h : scalarStep db eid k v = .ok db') :
    db'.languages = db.languages ∧ db'.nationalities = db.nationalities ∧
    db'.warrants = db.warrants ∧ db'.pictures = db.pictures ∧
    db'.log = db.log ∧ db'.nextId = db.nextId := by
  obtain ⟨S, -, hcase⟩ := scalarStep_ok_elim h
  rcases hcase with ⟨-, rfl⟩ | ⟨-, v', f, -, -, hsub⟩
  · exact ⟨rfl, rfl, rfl, rfl, rfl, rfl⟩
  · rcases hsub with ⟨-, rfl⟩ | ⟨-, rfl⟩
    · exact ⟨rfl, rfl, rfl, rfl, rfl, rfl⟩
    · simp [applyFieldUpdate, add_change_log_entry]

lemma runScalars_tables {eid : String} :
    ∀ (L : List (String × Jscalar)) (db dbS : DBState),
    runScalars eid db L = .ok dbS →
    dbS.languages = db.languages ∧ dbS.nationalities = db.nationalities ∧
    dbS.warrants = db.warrants ∧ dbS.pictures = db.pictures ∧
    dbS.log = db.log ∧ dbS.nextId = db.nextId := by
  intro L
  induction L with
  | nil =>
    intro db dbS h
    have h' : Except.ok (ε := Err) db = .ok dbS := h
    injection h' with hh
    subst hh
    exact ⟨rfl, rfl, rfl, rfl, rfl, rfl⟩
  | cons kv L ih =>
    intro db dbS h
    obtain ⟨k, v⟩ := kv
    obtain ⟨db', hs, hrest⟩ := runScalars_ok_cons h
    obtain ⟨h1, h2, h3, h4, h5, h6⟩ := scalarStep_tables hs
    obtain ⟨g1, g2, g3, g4, g5, g6⟩ := ih db' dbS hrest
    exact ⟨g1.trans h1, g2.trans h2, g3.trans h3, g4.trans h4, g5.trans h5, g6.trans h6⟩

/-! ## process_data machinery -/

lemma addPhase_noop (desc : TableDesc) (eid : String) (items_list : List CollItem) :
    ∀ (ds : List CollItem) (n : Nat), (∀ d ∈ ds, d ∈ items_list) →
    addPhase desc eid items_list ds n = ([], [], n) := by
  intro ds
  induction ds with
  | nil => intro n _; rfl
  | cons d ds ih =>
    intro n h
    have hd : d ∈ items_list := h d (List.mem_cons_self _ _)
    simp only [addPhase, if_pos hd]
    exact ih n (fun x hx => h x (List.mem_cons_of_mem _ hx))

lemma addPhase_logs_eq (desc : TableDesc) (eid : String) (items_list : List CollItem) :
    ∀ (ds : List CollItem) (n : Nat),
    (addPhase desc eid items_list ds n).2.1 =
      (ds.filter (fun d => decide (d ∉ items_list))).map (mkAddLog desc eid) := by
  intro ds
  induction ds with
  | nil => intro n; rfl
  | cons d ds ih =>
    intro n
    by_cases hd : d ∈ items_list
    · simp only [addPhase, if_pos hd, ih n]
      rw [List.filter_cons_of_neg (by simp [hd])]
    · simp only [addPhase, if_neg hd, ih (n + 1)]
      rw [List.filter_cons_of_pos (by simp [hd])]
      rfl

lemma addPhase_counter_ge (desc : TableDesc) (eid : String) (items_list : List CollItem) :
    ∀ (ds : List CollItem) (n : Nat), n ≤ (addPhase desc eid items_list ds n).2.2 := by
  intro ds
  induction ds with
  | nil => intro n; exact Nat.le_refl n
  | cons d ds ih =>
    intro n
    by_cases hd : d ∈ items_list
    · simp only [addPhase, if_pos hd]; exact ih n
    · simp only [addPhase, if_neg hd]
      exact Nat.le_trans (Nat.le_succ n) (ih (n + 1))

lemma addPhase_rows_sid_ge (desc : TableDesc) (eid : String) (items_list : List CollItem) :
    ∀ (ds : List CollItem) (n : Nat) (x : CollRow),
    x ∈ (addPhase desc eid items_list ds n).1 → n ≤ x.sid := by
  intro ds
  induction ds with
  | nil => intro n x hx; cases hx
  | cons d ds ih =>
    intro n x hx
    by_cases hd : d ∈ items_list
    · rw [addPhase, if_pos hd] at hx
      exact ih n x hx
    · rw [addPhase, if_neg hd] at hx
      rcases List.mem_cons.mp hx with rfl | hx'
      · exact Nat.le_refl _
      · exact Nat.le_trans (Nat.le_succ n) (ih (n + 1) x hx')

lemma addPhase_mem (desc : TableDesc) (eid : String) (items_list : List CollItem) :
    ∀ (ds : List CollItem) (n : Nat) (d : CollItem),
    d ∈ ds → d ∉ items_list →
    ∃ x ∈ (addPhase desc eid items_list ds n).1,
      x.entity_id = eid ∧ x.attrs = d.attrs ∧ n ≤ x.sid := by
  intro ds
  induction ds with
  | nil => intro n d hd; cases hd
  | cons d0 ds ih =>
    intro n d hd hni
    rcases List.mem_cons.mp hd with rfl | hd'
    · rw [addPhase, if_neg hni]
      exact ⟨⟨n, eid, d.attrs⟩, List.mem_cons_self _ _, rfl, rfl, Nat.le_refl _⟩
    · by_cases h0 : d0 ∈ items_list
      · rw [addPhase, if_pos h0]
        exact ih n d hd' hni
      · rw [addPhase, if_neg h0]
        obtain ⟨x, hx, h1, h2, h3⟩ := ih (n + 1) d hd' hni
        exact ⟨x, List.mem_cons_of_mem _ hx, h1, h2, Nat.le_trans (Nat.le_succ n) h3⟩

lemma addPhase_rows_char (desc : TableDesc) (eid : String) (items_list : List CollItem) :
    ∀ (ds : List CollItem) (n : Nat) (x : CollRow),
    x ∈ (addPhase desc eid items_list ds n).1 →
    x.entity_id = eid ∧ ∃ d ∈ ds, d ∉ items_list ∧ x.attrs = d.attrs := by
  intro ds
  induction ds with
  | nil => intro n x hx; cases hx
  | cons d0 ds ih =>
    intro n x hx
    by_cases h0 : d0 ∈ items_list
    · rw [addPhase, if_pos h0] at hx
      obtain ⟨h1, d, hd, h2, h3⟩ := ih n x hx
      exact ⟨h1, d, List.mem_cons_of_mem _ hd, h2, h3⟩
    · rw [addPhase, if_neg h0] at hx
      rcases List.mem_cons.mp hx with rfl | hx'
      · exact ⟨rfl, d0, List.mem_cons_self _ _, h0, rfl⟩
      · obtain ⟨h1, d, hd, h2, h3⟩ := ih (n + 1) x hx'
        exact ⟨h1, d, List.mem_cons_of_mem _ hd, h2, h3⟩

lemma innerDel_sub (desc : TableDesc) (item : CollItem) :
    ∀ (ids rows : List CollRow) (x : CollRow),
    x ∈ (innerDel desc item ids rows).1 → x ∈ rows := by
  intro ids
  induction ids with
  | nil => intro rows x hx; exact hx
  | cons idr ids ih =>
    intro rows x hx
    by_cases hi : rowDict idr = item
    · rw [innerDel, if_pos hi] at hx
      have := ih _ x hx
      exact List.mem_of_mem_filter this
    · rw [innerDel, if_neg hi] at hx
      exact ih rows x hx

lemma innerDel_keep (desc : TableDesc) (item : CollItem) :
    ∀ (ids rows : List CollRow) (x : CollRow),
    x ∈ rows → (∀ idr ∈ ids, rowDict idr = item → idr.sid ≠ x.sid) →
    x ∈ (innerDel desc item ids rows).1 := by
  intro ids
  induction ids with
  | nil => intro rows x hx _; exact hx
  | cons idr ids ih =>
    intro rows x hx h
    by_cases hi : rowDict idr = item
    · rw [innerDel, if_pos hi]
      apply ih
      · apply List.mem_filter.mpr
        exact ⟨hx, by simpa using (h idr (List.mem_cons_self _ _) hi).symm⟩
      · exact fun j hj hjit => h j (List.mem_cons_of_mem _ hj) hjit
    · rw [innerDel, if_neg hi]
      exact ih rows x hx (fun j hj hjit => h j (List.mem_cons_of_mem _ hj) hjit)

lemma innerDel_removes (desc : TableDesc) (item : CollItem) :
    ∀ (ids rows : List CollRow) (x : CollRow),
    (∃ idr ∈ ids, rowDict idr = item ∧ idr.sid = x.sid) →
    x ∉ (innerDel desc item ids rows).1 := by
  intro ids
  induction ids with
  | nil => rintro rows x ⟨idr, hidr, -⟩; cases hidr
  | cons idr0 ids ih =>
    rintro rows x ⟨idr, hidr, hit, hsid⟩ hx
    rcases List.mem_cons.mp hidr with rfl | hidr'
    · rw [innerDel, if_pos hit] at hx
      have hmem := innerDel_sub desc item ids _ x hx
      have := (List.mem_filter.mp hmem).2
      simp [hsid] at this
    · by_cases hi : rowDict idr0 = item
      · rw [innerDel, if_pos hi] at hx
        exact ih _ x ⟨idr, hidr', hit, hsid⟩ hx
      · rw [innerDel, if_neg hi] at hx
        exact ih rows x ⟨idr, hidr', hit, hsid⟩ hx

lemma innerDel_logs (desc : TableDesc) (item : CollItem) :
    ∀ (ids rows : List CollRow),
    (innerDel desc item ids rows).2 =
      (ids.filter (fun idr => decide (rowDict idr = item))).map (mkDelLog desc) := by
  intro ids
  induction ids with
  | nil => intro rows; rfl
  | cons idr ids ih =>
    intro rows
    by_cases hi : rowDict idr = item
    · rw [innerDel, if_pos hi, List.filter_cons_of_pos (by simp [hi])]
      simp only [List.map_cons]
      rw [ih]
    · rw [innerDel, if_neg hi, List.filter_cons_of_neg (by simp [hi])]
      exact ih rows

lemma delPhase_sub (desc : TableDesc) (dataL : List CollItem) (ids_list : List CollRow) :
    ∀ (items : List CollItem) (rows : List CollRow) (x : CollRow),
    x ∈ (delPhase desc dataL ids_list items rows).1 → x ∈ rows := by
  intro items
  induction items with
  | nil => intro rows x hx; exact hx
  | cons item items ih =>
    intro rows x hx
    by_cases hi : item ∈ dataL
    · rw [delPhase, if_pos hi] at hx
      exact ih rows x hx
    · rw [delPhase, if_neg hi] at hx
      exact innerDel_sub desc item ids_list rows x (ih _ x hx)

lemma delPhase_keep (desc : TableDesc) (dataL : List CollItem) (ids_list : List CollRow) :
    ∀ (items : List CollItem) (rows : List CollRow) (x : CollRow),
    x ∈ rows → (∀ idr ∈ ids_list, idr.sid = x.sid → rowDict idr ∈ dataL) →
    x ∈ (delPhase desc dataL ids_list items rows).1 := by
  intro items
  induction items with
  | nil => intro rows x hx _; exact hx
  | cons item items ih =>
    intro rows x hx h
    by_cases hi : item ∈ dataL
    · rw [delPhase, if_pos hi]
      exact ih rows x hx h
    · rw [delPhase, if_neg hi]
      apply ih
      · apply innerDel_keep desc item ids_list rows x hx
        intro idr hidr hit hsid
        exact hi (hit ▸ h idr hidr hsid)
      · exact h

lemma delPhase_removes (desc : TableDesc) (dataL : List CollItem) (ids_list : List CollRow) :
    ∀ (items : List CollItem) (rows : List CollRow) (x : CollRow),
    rowDict x ∈ items → rowDict x ∉ dataL →
    (∃ idr ∈ ids_list, rowDict idr = rowDict x ∧ idr.sid = x.sid) →
    x ∉ (delPhase desc dataL ids_list items rows).1 := by
  intro items
  induction items with
  | nil => intro rows x hit; cases hit
  | cons item items ih =>
    intro rows x hit hnot hex hx
    by_cases heq : rowDict x = item
    · subst heq
      rw [delPhase, if_neg hnot] at hx
      have hsub := delPhase_sub desc dataL ids_list items _ x hx
      exact innerDel_removes desc (rowDict x) ids_list rows x hex hsub
    · have hit' : rowDict x ∈ items := by
        rcases List.mem_cons.mp hit with h | h
        · exact absurd h heq
        · exact h
      by_cases hi : item ∈ dataL
      · rw [delPhase, if_pos hi] at hx
        exact ih rows x hit' hnot hex hx
      · rw [delPhase, if_neg hi] at hx
        exact ih _ x hit' hnot hex hx

lemma delPhase_noop (desc : TableDesc) (dataL : List CollItem) (ids_list : List CollRow) :
    ∀ (items : List CollItem) (rows : List CollRow),
    (∀ item ∈ items, item ∈ dataL) →
    delPhase desc dataL ids_list items rows = (rows, []) := by
  intro items
  induction items with
  | nil => intro rows _; rfl
  | cons item items ih =>
    intro rows h
    rw [delPhase, if_pos (h item (List.mem_cons_self _ _))]
    exact ih rows (fun x hx => h x (List.mem_cons_of_mem _ hx))

lemma delPhase_logs (desc : TableDesc) (dataL : List CollItem) (ids_list : List CollRow) :
    ∀ (items : List CollItem) (rows : List CollRow),
    (delPhase desc dataL ids_list items rows).2 =
      (items.filter (fun it => decide (it ∉ dataL))).flatMap
        (fun it => (ids_list.filter (fun idr => decide (rowDict idr = it))).map
          (mkDelLog desc)) := by
  intro items
  induction items with
  | nil => intro rows; rfl
  | cons item items ih =>
    intro rows
    by_cases hi : item ∈ dataL
    · rw [delPhase, if_pos hi, List.filter_cons_of_neg (by simp [hi])]
      exact ih rows
    · rw [delPhase, if_neg hi, List.filter_cons_of_pos (by simp [hi])]
      simp only [List.flatMap_cons]
      rw [← ih ((innerDel desc item ids_list rows).1), ← innerDel_logs]

lemma deleteAllPhase_sub (desc : TableDesc) :
    ∀ (rs rows : List CollRow) (x : CollRow),
    x ∈ (deleteAllPhase desc rs rows).1 → x ∈ rows := by
  intro rs
  induction rs with
  | nil => intro rows x hx; exact hx
  | cons r rs ih =>
    intro rows x hx
    rw [deleteAllPhase] at hx
    exact List.mem_of_mem_filter (ih _ x hx)

lemma deleteAllPhase_keep (desc : TableDesc) :
    ∀ (rs rows : List CollRow) (x : CollRow),
    x ∈ rows → (∀ r ∈ rs, r.sid ≠ x.sid) →
    x ∈ (deleteAllPhase desc rs rows).1 := by
  intro rs
  induction rs with
  | nil => intro rows x hx _; exact hx
  | cons r rs ih =>
    intro rows x hx h
    rw [deleteAllPhase]
    apply ih
    · apply List.mem_filter.mpr
      exact ⟨hx, by simpa using (h r (List.mem_cons_self _ _)).symm⟩
    · exact fun j hj => h j (List.mem_cons_of_mem _ hj)

lemma deleteAllPhase_removes (desc : TableDesc) :
    ∀ (rs rows : List CollRow) (x : CollRow),
    (∃ r ∈ rs, r.sid = x.sid) →
    x ∉ (deleteAllPhase desc rs rows).1 := by
  intro rs
  induction rs with
  | nil => rintro rows x ⟨r, hr, -⟩; cases hr
  | cons r0 rs ih =>
    rintro rows x ⟨r, hr, hsid⟩ hx
    rcases List.mem_cons.mp hr with rfl | hr'
    · rw [deleteAllPhase] at hx
      have hmem := deleteAllPhase_sub desc rs _ x hx
      have := (List.mem_filter.mp hmem).2
      simp [hsid] at this
    · rw [deleteAllPhase] at hx
      exact ih _ x ⟨r, hr', hsid⟩ hx

lemma deleteAllPhase_logs (desc : TableDesc) :
    ∀ (rs rows : List CollRow),
    (deleteAllPhase desc rs rows).2 = rs.map (mkDelLog desc) := by
  intro rs
  induction rs with
  | nil => intro rows; rfl
  | cons r rs ih =>
    intro rows
    rw [deleteAllPhase]
    simp only [List.map_cons]
    rw [ih]

lemma flatMap_singleton {α β : Type} (l : List α) (g : α → β) :
    l.flatMap (fun x => [g x]) = l.map g := by
  induction l with
  | nil => rfl
  | cons a l ih => simp [List.flatMap_cons, ih]

lemma addAllPhase_sid_ge (desc : TableDesc) (eid : String) :
    ∀ (ds : List CollItem) (n : Nat) (x : CollRow),
    x ∈ (addAllPhase desc eid ds n).1 → n ≤ x.sid := by
  intro ds
  induction ds with
  | nil => intro n x hx; cases hx
  | cons d ds ih =>
    intro n x hx
    rw [addAllPhase] at hx
    rcases List.mem_cons.mp hx with rfl | hx'
    · exact Nat.le_refl _
    · exact Nat.le_trans (Nat.le_succ n) (ih (n + 1) x hx')

lemma addAllPhase_counter_ge (desc : TableDesc) (eid : String) :
    ∀ (ds : List CollItem) (n : Nat), n ≤ (addAllPhase desc eid ds n).2.2 := by
  intro ds n
  rw [addAllPhase_counter desc eid ds n]
  omega

lemma addAllPhase_mem (desc : TableDesc) (eid : String) :
    ∀ (ds : List CollItem) (n : Nat) (d : CollItem), d ∈ ds →
    ∃ x ∈ (addAllPhase desc eid ds n).1,
      x.entity_id = eid ∧ x.attrs = d.attrs ∧ n ≤ x.sid := by
  intro ds
  induction ds with
  | nil => intro n d hd; cases hd
  | cons d0 ds ih =>
    intro n d hd
    rw [addAllPhase]
    rcases List.mem_cons.mp hd with rfl | hd'
    · exact ⟨⟨n, eid, d.attrs⟩, List.mem_cons_self _ _, rfl, rfl, Nat.le_refl _⟩
    · obtain ⟨x, hx, h1, h2, h3⟩ := ih (n + 1) d hd'
      exact ⟨x, List.mem_cons_of_mem _ hx, h1, h2, Nat.le_trans (Nat.le_succ n) h3⟩

lemma addAllPhase_rows_char (desc : TableDesc) (eid : String) :
    ∀ (ds : List CollItem) (n : Nat) (x : CollRow),
    x ∈ (addAllPhase desc eid ds n).1 →
    x.entity_id = eid ∧ ∃ d ∈ ds, x.attrs = d.attrs := by
  intro ds
  induction ds with
  | nil => intro n x hx; cases hx
  | cons d0 ds ih =>
    intro n x hx
    rw [addAllPhase] at hx
    rcases List.mem_cons.mp hx with rfl | hx'
    · exact ⟨rfl, d0, List.mem_cons_self _ _, rfl⟩
    · obtain ⟨h1, d, hd, h2⟩ := ih (n + 1) x hx'
      exact ⟨h1, d, List.mem_cons_of_mem _ hd, h2⟩

lemma process_data_counter_ge (desc : TableDesc) (dataOpt : Option (List CollItem))
    (eid : String) (rows : List CollRow) (n : Nat) :
    n ≤ (process_data desc dataOpt eid rows n).2.2 := by
  unfold process_data
  by_cases hdl : dataOpt.getD [] ≠ []
  · rw [if_pos hdl]
    by_cases hdb : rows.filter (fun r => r.entity_id == eid) ≠ []
    · rw [if_pos hdb]
      exact addPhase_counter_ge desc eid _ _ n
    · rw [if_neg hdb]
      exact addAllPhase_counter_ge desc eid _ n
  · rw [if_neg hdl]
    by_cases hdb : rows.filter (fun r => r.entity_id == eid) ≠ []
    · rw [if_pos hdb]
    · rw [if_neg hdb]

lemma process_data_noop (desc : TableDesc) (dataOpt : Option (List CollItem)) (eid : String)
    (rows : List CollRow) (n : Nat)
    (h1 : ∀ d ∈ dataOpt.getD [],
      d ∈ (rows.filter (fun r => r.entity_id == eid)).map rowDict)
    (h2 : ∀ it ∈ (rows.filter (fun r => r.entity_id == eid)).map rowDict,
      it ∈ dataOpt.getD []) :
    process_data desc dataOpt eid rows n = (rows, [], n) := by
  unfold process_data
  by_cases hdl : dataOpt.getD [] = []
  · rw [if_neg (not_not_intro hdl)]
    have hdb : rows.filter (fun r => r.entity_id == eid) = [] := by
      apply List.map_eq_nil_iff.mp
      cases hh : (rows.filter (fun r => r.entity_id == eid)).map rowDict with
      | nil => rfl
      | cons a l =>
        have := h2 a (by rw [hh]; exact List.mem_cons_self _ _)
        rw [hdl] at this
        cases this
    rw [if_neg (not_not_intro hdb)]
  · obtain ⟨d, hd⟩ := List.exists_mem_of_ne_nil _ hdl
    have hdb : rows.filter (fun r => r.entity_id == eid) ≠ [] := by
      intro hnil
      have := h1 d hd
      rw [hnil] at this
      cases this
    rw [if_pos hdl, if_pos hdb]
    simp only [addPhase_noop desc eid _ _ n h1]
    simp only [delPhase_noop desc _ _ _ _ h2]
    simp

lemma process_data_sync (desc : TableDesc) (dataOpt : Option (List CollItem)) (eid : String)
    (rows : List CollRow) (n : Nat)
    (hnd : (rows.map (fun r => r.sid)).Nodup)
    (hlt : ∀ r ∈ rows, r.sid < n)
    (hde : ∀ d ∈ dataOpt.getD [], d.entity_id = eid) :
    (∀ d ∈ dataOpt.getD [],
      d ∈ ((process_data desc dataOpt eid rows n).1.filter
        (fun r => r.entity_id == eid)).map rowDict) ∧
    (∀ it ∈ ((process_data desc dataOpt eid rows n).1.filter
        (fun r => r.entity_id == eid)).map rowDict,
      it ∈ dataOpt.getD []) := by
  have hinj := List.inj_on_of_nodup_map hnd
  unfold process_data
  by_cases hdl : dataOpt.getD [] = []
  · rw [if_neg (not_not_intro hdl)]
    constructor
    · intro d hd; rw [hdl] at hd; cases hd
    · by_cases hdb : rows.filter (fun r => r.entity_id == eid) ≠ []
      · rw [if_pos hdb]
        intro it hit
        rcases List.mem_map.mp hit with ⟨x, hx, -⟩
        rcases List.mem_filter.mp hx with ⟨hxr, hxe⟩
        have hx0 := deleteAllPhase_sub desc _ rows x hxr
        exact absurd hxr (deleteAllPhase_removes desc _ rows x
          ⟨x, List.mem_filter.mpr ⟨hx0, hxe⟩, rfl⟩)
      · rw [if_neg hdb]
        push_neg at hdb
        intro it hit
        rcases List.mem_map.mp hit with ⟨x, hx, -⟩
        rw [hdb] at hx
        cases hx
  · obtain ⟨d0, hd0⟩ := List.exists_mem_of_ne_nil _ hdl
    rw [if_pos hdl]
    by_cases hdb : rows.filter (fun r => r.entity_id == eid) ≠ []
    · rw [if_pos hdb]
      constructor
      · intro d hd
        by_cases hdi : d ∈ (rows.filter (fun r => r.entity_id == eid)).map rowDict
        · rcases List.mem_map.mp hdi with ⟨x, hx, hxd⟩
          rcases List.mem_filter.mp hx with ⟨hxr, hxe⟩
          have hkeep : x ∈ (delPhase desc (dataOpt.getD [])
              (rows.filter (fun r => r.entity_id == eid))
              ((rows.filter (fun r => r.entity_id == eid)).map rowDict)
              (rows ++ (addPhase desc eid ((rows.filter (fun r => r.entity_id == eid)).map rowDict) (dataOpt.getD []) n).1)).1 := by
            apply delPhase_keep
            · exact List.mem_append_left _ hxr
            · intro idr hidr hsid
              have hidr0 := List.mem_of_mem_filter hidr
              have : idr = x := hinj hidr0 hxr hsid
              rw [this, hxd]
              exact hd
          exact List.mem_map.mpr ⟨x, List.mem_filter.mpr ⟨hkeep, hxe⟩, hxd⟩
        · obtain ⟨y, hy, hy1, hy2, hy3⟩ :=
            addPhase_mem desc eid ((rows.filter (fun r => r.entity_id == eid)).map rowDict) (dataOpt.getD []) n d hd hdi
          have hkeep : y ∈ (delPhase desc (dataOpt.getD [])
              (rows.filter (fun r => r.entity_id == eid))
              ((rows.filter (fun r => r.entity_id == eid)).map rowDict)
              (rows ++ (addPhase desc eid ((rows.filter (fun r => r.entity_id == eid)).map rowDict) (dataOpt.getD []) n).1)).1 := by
            apply delPhase_keep
            · exact List.mem_append_right _ hy
            · intro idr hidr hsid
              have hidr0 := List.mem_of_mem_filter hidr
              have := hlt idr hidr0
              omega
          refine List.mem_map.mpr ⟨y, List.mem_filter.mpr ⟨hkeep, by simp [hy1]⟩, ?_⟩
          have hded : d.entity_id = eid := hde d hd
          cases d
          simp only [rowDict, hy1, hy2]
          simp_all
      · intro it hit
        rcases List.mem_map.mp hit with ⟨x, hx, hxd⟩
        rcases List.mem_filter.mp hx with ⟨hxr, hxe⟩
        have hx0 := delPhase_sub desc _ _ _ _ x hxr
        rcases List.mem_append.mp hx0 with hxrows | hxadd
        · by_cases hmem : rowDict x ∈ dataOpt.getD []
          · rw [← hxd]; exact hmem
          · exfalso
            apply delPhase_removes desc (dataOpt.getD [])
              (rows.filter (fun r => r.entity_id == eid))
              ((rows.filter (fun r => r.entity_id == eid)).map rowDict)
              (rows ++ (addPhase desc eid ((rows.filter (fun r => r.entity_id == eid)).map rowDict) (dataOpt.getD []) n).1) x
              (List.mem_map.mpr ⟨x, List.mem_filter.mpr ⟨hxrows, hxe⟩, rfl⟩)
              hmem
              ⟨x, List.mem_filter.mpr ⟨hxrows, hxe⟩, rfl, rfl⟩
              hxr
        · obtain ⟨h1, d, hd, -, h3⟩ := addPhase_rows_char desc eid ((rows.filter (fun r => r.entity_id == eid)).map rowDict) (dataOpt.getD []) n x hxadd
          rw [← hxd]
          have hded : d.entity_id = eid := hde d hd
          have : rowDict x = d := by
            cases d
            simp only [rowDict, h1, h3]
            simp_all
          rw [this]
          exact hd
    · rw [if_neg hdb]
      push_neg at hdb
      constructor
      · intro d hd
        obtain ⟨x, hx, h1, h2, -⟩ := addAllPhase_mem desc eid (dataOpt.getD []) n d hd
        refine List.mem_map.mpr ⟨x, List.mem_filter.mpr
          ⟨List.mem_append_right _ hx, by simp [h1]⟩, ?_⟩
        have hded : d.entity_id = eid := hde d hd
        cases d
        simp only [rowDict, h1, h2]
        simp_all
      · intro it hit
        rcases List.mem_map.mp hit with ⟨x, hx, hxd⟩
        rcases List.mem_filter.mp hx with ⟨hxr, hxe⟩
        rcases List.mem_append.mp hxr with hxrows | hxadd
        · exfalso
          have : x ∈ rows.filter (fun r => r.entity_id == eid) :=
            List.mem_filter.mpr ⟨hxrows, hxe⟩
          rw [hdb] at this
          cases this
        · obtain ⟨h1, d, hd, h2⟩ := addAllPhase_rows_char desc eid _ n x hxadd
          rw [← hxd]
          have hded : d.entity_id = eid := hde d hd
          have : rowDict x = d := by
            cases d
            simp only [rowDict, h1, h2]
            simp_all
          rw [this]
          exact hd

lemma collStep_noop (db : DBState) (eid : String) (desc : TableDesc)
    (sel : DBState → List CollRow) (upd : DBState → List CollRow → DBState)
    (dataOpt : Option (List CollItem)) (S : PersonalInformation)
    (hq : queryOnePersonal db eid = .ok S)
    (h1 : ∀ d ∈ dataOpt.getD [],
      d ∈ ((sel db).filter (fun r => r.entity_id == eid)).map rowDict)
    (h2 : ∀ it ∈ ((sel db).filter (fun r => r.entity_id == eid)).map rowDict,
      it ∈ dataOpt.getD [])
    (hupd : upd db (sel db) = db) :
    collStep db eid desc sel upd dataOpt = .ok db := by
  simp only [collStep, hq, process_data_noop desc dataOpt eid (sel db) db.nextId h1 h2, hupd]
  simp

lemma picturesStep_noop (db : DBState) (eid : String)
    (dataOpt : Option (List PicPayload)) (S : PersonalInformation)
    (hq : queryOnePersonal db eid = .ok S)
    (h1 : ∀ pid ∈ entityPictureIds db eid,
      pid ∈ (dataOpt.getD []).map (fun q => q.picture_id))
    (h2 : ∀ q ∈ (dataOpt.getD []).map (fun q => q.picture_id),
      q ∈ entityPictureIds db eid) :
    picturesStep db eid dataOpt = .ok db := by
  by_cases hqe : dataOpt.getD [] = []
  · have hdb : entityPictureIds db eid = [] := by
      cases hh : entityPictureIds db eid with
      | nil => rfl
      | cons a l =>
        have := h1 a (by rw [hh]; exact List.mem_cons_self _ _)
        rw [hqe] at this
        cases this
    simp only [picturesStep, hq]
    rw [if_neg (by rw [hqe]; simp), if_neg (by rw [hdb]; simp)]
  · have hqne : (dataOpt.getD []).map (fun q => q.picture_id) ≠ [] := by
      simpa using hqe
    obtain ⟨q0, hq0⟩ := List.exists_mem_of_ne_nil _ hqne
    have hdbne : entityPictureIds db eid ≠ [] := by
      intro hnil
      have := h2 q0 hq0
      rw [hnil] at this
      cases this
    have hdel : (entityPictureIds db eid).filter
        (fun q => decide (q ∉ (dataOpt.getD []).map (fun q => q.picture_id))) = [] := by
      apply List.filter_eq_nil_iff.mpr
      intro pid hpid hnot
      simp only [decide_eq_true_eq] at hnot
      exact hnot (h1 pid hpid)
    have hnew : ((dataOpt.getD []).map (fun q => q.picture_id)).filter
        (fun p => decide (p ∉ entityPictureIds db eid)) = [] := by
      apply List.filter_eq_nil_iff.mpr
      intro p hp hnot
      simp only [decide_eq_true_eq] at hnot
      exact hnot (h2 p hp)
    simp only [picturesStep, hq]
    rw [if_pos ⟨hqe, hdbne⟩, hdel, hnew]
    simp [deletePicsLoop, addPicsLoop]

lemma applyFieldUpdate_frame (db : DBState) (eid : String) (S : PersonalInformation)
    (k : String) (f : PField) (v' : Scalar) :
    (applyFieldUpdate db eid S k f v').languages = db.languages ∧
    (applyFieldUpdate db eid S k f v').nationalities = db.nationalities ∧
    (applyFieldUpdate db eid S k f v').warrants = db.warrants ∧
    (applyFieldUpdate db eid S k f v').pictures = db.pictures ∧
    (applyFieldUpdate db eid S k f v').log = db.log ∧
    (applyFieldUpdate db eid S k f v').nextId = db.nextId ∧
    (applyFieldUpdate db eid S k f v').change_log = db.change_log ++
      [⟨S.entity_id, "personal_informations", k, getF S f, some v',
        "Change in personal information"⟩] ∧
    (applyFieldUpdate db eid S k f v').personals =
      db.personals.map (fun r => if r.entity_id == eid then setF r f v' else r) := by
  simp [applyFieldUpdate, add_change_log_entry]

/-- C1: applying a Changed delta re-reads the stored row per field at apply
time (`scalarStep` re-queries before each comparison), coerces the incoming
value to the stored semantic type (`coerceValue`) and, when the pair differs
in exactly one scalar field (all other fields `agreeStep`, i.e. null or
coerced-equal), produces exactly one column update and exactly one
ChangeLogEntry whose old/new values are the stored value and the coerced
incoming value — and zero collection-row mutations (all four collection
tables and the row-level `log` are untouched). Fields whose coerced value
equals the stored value produce no update and no entry. -/
theorem changed_scalar_field_applied (db : DBState) (m : PersonalInfoData)
    (S : PersonalInformation) (L₁ L₂ : List (String × Jscalar)) (k : String) (v : Jscalar)
    (f : PField) (v' : Scalar)
    (hq : queryOnePersonal db m.entity_id = .ok S)
    (hsplit : scalarItems m = L₁ ++ (k, v) :: L₂)
    (h₁ : ∀ kv ∈ L₁, agreeStep S kv)
    (h₂ : ∀ kv ∈ L₂, agreeStep S kv)
    (h₂f : ∀ kv ∈ L₂, fieldOfKey kv.1 ≠ some f)
    (hvn : v ≠ Jscalar.null)
    (hfk : fieldOfKey k = some f) (hfe : f ≠ PField.entity_id)
    (hc : coerceValue k v = .ok v')
    (hne : pyNe (getF S f) v' = true)
    (hsn : m.nationalities.getD [] =
      (db.nationalities.filter (fun r => r.entity_id == m.entity_id)).map rowDict)
    (hsl : m.languages_spoken_ids.getD [] =
      (db.languages.filter (fun r => r.entity_id == m.entity_id)).map rowDict)
    (hsw : m.arrest_warrants.getD [] =
      (db.warrants.filter (fun r => r.entity_id == m.entity_id)).map rowDict)
    (hsp : (m.pictures.getD []).map (fun q => q.picture_id) =
      entityPictureIds db m.entity_id) :
    callback_change_db db m = .ok (applyFieldUpdate db m.entity_id S k f v') ∧
    (applyFieldUpdate db m.entity_id S k f v').change_log = db.change_log ++
      [⟨S.entity_id, "personal_informations", k, getF S f, some v',
        "Change in personal information"⟩] ∧
    (applyFieldUpdate db m.entity_id S k f v').log = db.log ∧
    (applyFieldUpdate db m.entity_id S k f v').languages = db.languages ∧
    (applyFieldUpdate db m.entity_id S k f v').nationalities = db.nationalities ∧
    (applyFieldUpdate db m.entity_id S k f v').warrants = db.warrants ∧
    (applyFieldUpdate db m.entity_id S k f v').pictures = db.pictures ∧
    (applyFieldUpdate db m.entity_id S k f v').personals =
      db.personals.map (fun r => if r.entity_id == m.entity_id then setF r f v' else r) := by
  obtain ⟨hfl, hfn, hfw, hfp, hflog, hfnext, hfcl, hfpers⟩ :=
    applyFieldUpdate_frame db m.entity_id S k f v'
  have hrs : runScalars m.entity_id db (scalarItems m) =
      .ok (applyFieldUpdate db m.entity_id S k f v') := by
    rw [hsplit]
    exact runScalars_one_diff L₁ L₂ k v db S f v' hq h₁ h₂ h₂f hvn hfk hfe hc hne
  have hqU : queryOnePersonal (applyFieldUpdate db m.entity_id S k f v') m.entity_id =
      .ok (setF S f v') := queryOne_applyFieldUpdate hq hfe
  have hcn : collStep (applyFieldUpdate db m.entity_id S k f v') m.entity_id nationalityDesc
      (fun s => s.nationalities) (fun s rs => { s with nationalities := rs })
      m.nationalities = .ok (applyFieldUpdate db m.entity_id S k f v') := by
    apply collStep_noop _ _ _ _ _ _ _ hqU
    · intro d hd
      rw [hfn]
      rw [hsn] at hd
      exact hd
    · intro it hit
      rw [hsn]
      rw [hfn] at hit
      exact hit
    · rfl
  have hcl : collStep (applyFieldUpdate db m.entity_id S k f v') m.entity_id languageDesc
      (fun s => s.languages) (fun s rs => { s with languages := rs })
      m.languages_spoken_ids = .ok (applyFieldUpdate db m.entity_id S k f v') := by
    apply collStep_noop _ _ _ _ _ _ _ hqU
    · intro d hd
      rw [hfl]
      rw [hsl] at hd
      exact hd
    · intro it hit
      rw [hsl]
      rw [hfl] at hit
      exact hit
    · rfl
  have hcw : collStep (applyFieldUpdate db m.entity_id S k f v') m.entity_id arrestWarrantDesc
      (fun s => s.warrants) (fun s rs => { s with warrants := rs })
      m.arrest_warrants = .ok (applyFieldUpdate db m.entity_id S k f v') := by
    apply collStep_noop _ _ _ _ _ _ _ hqU
    · intro d hd
      rw [hfw]
      rw [hsw] at hd
      exact hd
    · intro it hit
      rw [hsw]
      rw [hfw] at hit
      exact hit
    · rfl
  have hpicids : entityPictureIds (applyFieldUpdate db m.entity_id S k f v') m.entity_id =
      entityPictureIds db m.entity_id := by
    unfold entityPictureIds
    rw [hfp]
  have hcp : picturesStep (applyFieldUpdate db m.entity_id S k f v') m.entity_id
      m.pictures = .ok (applyFieldUpdate db m.entity_id S k f v') := by
    apply picturesStep_noop _ _ _ _ hqU
    · intro pid hpid
      rw [hsp]
      rw [hpicids] at hpid
      exact hpid
    · intro q hqq
      rw [hpicids]
      rw [← hsp]
      exact hqq
  refine ⟨?_, hfcl, hflog, hfl, hfn, hfw, hfp, hfpers⟩
  simp only [callback_change_db, hrs, hcn, hcl, hcw, hcp]

/-- Witness inputs for the single-changed-field scenario: `place_of_birth`
stored as "Paris", incoming "Lyon", everything else null/equal. -/
def samplePersonalC1 : PersonalInformation :=
  ⟨"X1", none, none, none, none, some (.s "Paris"), none, none, none, none, none, none,
   true, none⟩

def dbC1 : DBState := ⟨[samplePersonalC1], [], [], [], [], [], [], 0⟩

def mC1 : PersonalInfoData :=
  ⟨"X1", .null, .null, .null, .null, .s "Lyon", .null, .null, .null, .null, .null, .null,
   true, .null, none, none, none, none⟩

def L1C1 : List (String × Jscalar) :=
  [("entity_id", .s "X1"), ("name", .null), ("forename", .null), ("sex_id", .null),
   ("country_of_birth_id", .null)]

def L2C1 : List (String × Jscalar) :=
  [("date_of_birth", .null), ("height", .null), ("eyes_colors_id", .null),
   ("hairs_id", .null), ("distinguishing_marks", .null), ("weight", .null),
   ("is_active", .b true), ("thumbnail", .null)]

theorem changed_scalar_field_applied_witness :
    callback_change_db dbC1 mC1 =
      .ok (applyFieldUpdate dbC1 mC1.entity_id samplePersonalC1 "place_of_birth"
        PField.place_of_birth (.s "Lyon")) ∧
    (applyFieldUpdate dbC1 mC1.entity_id samplePersonalC1 "place_of_birth"
        PField.place_of_birth (.s "Lyon")).change_log = dbC1.change_log ++
      [⟨samplePersonalC1.entity_id, "personal_informations", "place_of_birth",
        getF samplePersonalC1 PField.place_of_birth, some (.s "Lyon"),
        "Change in personal information"⟩] ∧
    (applyFieldUpdate dbC1 mC1.entity_id samplePersonalC1 "place_of_birth"
        PField.place_of_birth (.s "Lyon")).log = dbC1.log ∧
    (applyFieldUpdate dbC1 mC1.entity_id samplePersonalC1 "place_of_birth"
        PField.place_of_birth (.s "Lyon")).languages = dbC1.languages ∧
    (applyFieldUpdate dbC1 mC1.entity_id samplePersonalC1 "place_of_birth"
        PField.place_of_birth (.s "Lyon")).nationalities = dbC1.nationalities ∧
    (applyFieldUpdate dbC1 mC1.entity_id samplePersonalC1 "place_of_birth"
        PField.place_of_birth (.s "Lyon")).warrants = dbC1.warrants ∧
    (applyFieldUpdate dbC1 mC1.entity_id samplePersonalC1 "place_of_birth"
        PField.place_of_birth (.s "Lyon")).pictures = dbC1.pictures ∧
    (applyFieldUpdate dbC1 mC1.entity_id samplePersonalC1 "place_of_birth"
        PField.place_of_birth (.s "Lyon")).personals =
      dbC1.personals.map (fun r => if r.entity_id == mC1.entity_id then
        setF r PField.place_of_birth (.s "Lyon") else r) :=
  changed_scalar_field_applied dbC1 mC1 samplePersonalC1 L1C1 L2C1
    "place_of_birth" (.s "Lyon") PField.place_of_birth (.s "Lyon")
    rfl
    rfl
    (by
      intro kv hkv
      simp only [L1C1, List.mem_cons, List.not_mem_nil, or_false] at hkv
      rcases hkv with rfl | rfl | rfl | rfl | rfl
      · exact Or.inr ⟨PField.entity_id, .s "X1", rfl, rfl, by decide⟩
      · exact Or.inl rfl
      · exact Or.inl rfl
      · exact Or.inl rfl
      · exact Or.inl rfl)
    (by
      intro kv hkv
      simp only [L2C1, List.mem_cons, List.not_mem_nil, or_false] at hkv
      rcases hkv with rfl | rfl | rfl | rfl | rfl | rfl | rfl | rfl
      · exact Or.inl rfl
      · exact Or.inl rfl
      · exact Or.inl rfl
      · exact Or.inl rfl
      · exact Or.inl rfl
      · exact Or.inl rfl
      · exact Or.inr ⟨PField.is_active, .b true, rfl, rfl, by decide⟩
      · exact Or.inl rfl)
    (by decide)
    (by decide)
    rfl
    (by decide)
    rfl
    (by decide)
    rfl rfl rfl rfl

/-! ## C2 counting machinery -/

/-- One `Added` log entry for incoming dict `d` (the two snapshot key orders
produced by the two insert branches of `process_data`). -/
def isAddLogFor (desc : TableDesc) (eid : String) (d : CollItem) (L : LogRow) : Bool :=
  L == mkAddLog desc eid d || L == mkAddLogAll desc eid d

lemma zip_cancel {α β : Type} (l : List α) (a b : List β)
    (h1 : a.length = l.length) (h2 : b.length = l.length) (h : l.zip a = l.zip b) :
    a = b := by
  have ha := List.map_snd_zip l a (by omega)
  have hb := List.map_snd_zip l b (by omega)
  rw [← ha, ← hb, h]

lemma flatMap_congr {α β : Type} (l : List α) (f g : α → List β)
    (h : ∀ x ∈ l, f x = g x) : l.flatMap f = l.flatMap g := by
  induction l with
  | nil => rfl
  | cons a l ih =>
    simp only [List.flatMap_cons]
    rw [h a (List.mem_cons_self _ _), ih (fun x hx => h x (List.mem_cons_of_mem _ hx))]

lemma mkDelLog_eq_iff {desc : TableDesc} {x r : CollRow}
    (hx : x.attrs.length = desc.payloadCols.length)
    (hr : r.attrs.length = desc.payloadCols.length) :
    mkDelLog desc x = mkDelLog desc r ↔ rowDict x = rowDict r := by
  unfold mkDelLog mkSnapAll rowDict
  constructor
  · intro h
    injection h with h1 h2 h3 h4 h5
    injection h4 with h41 h42
    have hattrs : x.attrs = r.attrs :=
      zip_cancel desc.payloadCols x.attrs r.attrs hx hr h42
    simp [h1, hattrs]
  · intro h
    injection h with h1 h2
    simp [h1, h2]

lemma mkAddLog_eq_iff {desc : TableDesc} {eid : String} {x d : CollItem}
    (hx : x.attrs.length = desc.payloadCols.length)
    (hd : d.attrs.length = desc.payloadCols.length) :
    mkAddLog desc eid x = mkAddLog desc eid d ↔ x.attrs = d.attrs := by
  unfold mkAddLog mkAddedSnap
  constructor
  · intro h
    injection h with h1 h2 h3 h4 h5
    have h4' := List.append_inj_left' h4 (by simp)
    exact zip_cancel desc.payloadCols x.attrs d.attrs hx hd h4'
  · intro h
    rw [h]

lemma mkAddLogAll_eq_iff {desc : TableDesc} {eid : String} {x d : CollItem}
    (hx : x.attrs.length = desc.payloadCols.length)
    (hd : d.attrs.length = desc.payloadCols.length) :
    mkAddLogAll desc eid x = mkAddLogAll desc eid d ↔ x.attrs = d.attrs := by
  unfold mkAddLogAll mkSnapAll
  constructor
  · intro h
    injection h with h1 h2 h3 h4 h5
    injection h4 with h41 h42
    exact zip_cancel desc.payloadCols x.attrs d.attrs hx hd h42
  · intro h
    rw [h]

lemma mkAddLog_ne_mkAddLogAll {desc : TableDesc} {eid eid' : String} {x d : CollItem}
    (hx : x.attrs.length = desc.payloadCols.length)
    (hcol : "entity_id" ∉ desc.payloadCols)
    (hcne : desc.payloadCols ≠ []) :
    mkAddLog desc eid x ≠ mkAddLogAll desc eid' d := by
  intro h
  unfold mkAddLog mkAddLogAll mkAddedSnap mkSnapAll at h
  injection h with h1 h2 h3 h4 h5
  cases hcols : desc.payloadCols with
  | nil => exact hcne hcols
  | cons c cs =>
    rw [hcols] at hx
    cases hattrs : x.attrs with
    | nil => rw [hattrs] at hx; simp at hx
    | cons a as =>
      rw [hcols, hattrs] at h4
      rw [List.zip_cons_cons, List.cons_append] at h4
      injection h4 with h41 h42
      injection h41 with h411 h412
      apply hcol
      rw [hcols, h411]
      exact List.mem_cons_self _ _

lemma mkDelLog_ne_add {desc : TableDesc} {eid : String} {r : CollRow} {d : CollItem} :
    mkDelLog desc r ≠ mkAddLog desc eid d ∧ mkDelLog desc r ≠ mkAddLogAll desc eid d := by
  constructor
  · intro h
    unfold mkDelLog mkAddLog at h
    injection h with h1 h2 h3 h4 h5
    exact absurd h3 (by decide)
  · intro h
    unfold mkDelLog mkAddLogAll at h
    injection h with h1 h2 h3 h4 h5
    exact absurd h3 (by decide)

lemma delLogs_simplify (desc : TableDesc) (dataL : List CollItem) (db_infos : List CollRow)
    (hnd : (db_infos.map rowDict).Nodup) (rows : List CollRow) :
    (delPhase desc dataL db_infos (db_infos.map rowDict) rows).2 =
      (db_infos.filter (fun x => decide (rowDict x ∉ dataL))).map (mkDelLog desc) := by
  have hinj := List.inj_on_of_nodup_map hnd
  have hndl : db_infos.Nodup := List.Nodup.of_map _ hnd
  rw [delPhase_logs, List.filter_map, List.flatMap_map]
  have hstep : ∀ x ∈ db_infos.filter ((fun it => decide (it ∉ dataL)) ∘ rowDict),
      (db_infos.filter (fun idr => decide (rowDict idr = rowDict x))).map (mkDelLog desc) =
        [mkDelLog desc x] := by
    intro x hx
    have hx0 := List.mem_of_mem_filter hx
    have hfx : db_infos.filter (fun idr => decide (rowDict idr = rowDict x)) = [x] := by
      apply filter_eq_single_of_unique _ _ x hndl hx0
      intro y hy
      simp only [decide_eq_true_eq]
      exact ⟨fun h => hinj hy hx0 h, fun h => by rw [h]⟩
    rw [hfx]
    rfl
  rw [flatMap_congr _ _ _ hstep, flatMap_singleton]
  congr 1

lemma process_data_eq_both (desc : TableDesc) (dataOpt : Option (List CollItem))
    (eid : String) (rows : List CollRow) (n : Nat)
    (hdl : dataOpt.getD [] ≠ []) (hdb : rows.filter (fun r => r.entity_id == eid) ≠ []) :
    process_data desc dataOpt eid rows n =
      ((delPhase desc (dataOpt.getD []) (rows.filter (fun r => r.entity_id == eid))
          ((rows.filter (fun r => r.entity_id == eid)).map rowDict)
          (rows ++ (addPhase desc eid ((rows.filter (fun r => r.entity_id == eid)).map rowDict)
            (dataOpt.getD []) n).1)).1,
       (addPhase desc eid ((rows.filter (fun r => r.entity_id == eid)).map rowDict)
          (dataOpt.getD []) n).2.1 ++
         (delPhase desc (dataOpt.getD []) (rows.filter (fun r => r.entity_id == eid))
            ((rows.filter (fun r => r.entity_id == eid)).map rowDict)
            (rows ++ (addPhase desc eid ((rows.filter (fun r => r.entity_id == eid)).map rowDict)
              (dataOpt.getD []) n).1)).2,
       (addPhase desc eid ((rows.filter (fun r => r.entity_id == eid)).map rowDict)
          (dataOpt.getD []) n).2.2) := by
  unfold process_data
  rw [if_pos hdl, if_pos hdb]

lemma process_data_eq_addAll (desc : TableDesc) (dataOpt : Option (List CollItem))
    (eid : String) (rows : List CollRow) (n : Nat)
    (hdl : dataOpt.getD [] ≠ []) (hdb : rows.filter (fun r => r.entity_id == eid) = []) :
    process_data desc dataOpt eid rows n =
      (rows ++ (addAllPhase desc eid (dataOpt.getD []) n).1,
       (addAllPhase desc eid (dataOpt.getD []) n).2.1,
       (addAllPhase desc eid (dataOpt.getD []) n).2.2) := by
  unfold process_data
  rw [if_pos hdl, if_neg (not_not_intro hdb)]

lemma process_data_eq_delAll (desc : TableDesc) (dataOpt : Option (List CollItem))
    (eid : String) (rows : List CollRow) (n : Nat)
    (hdl : dataOpt.getD [] = []) (hdb : rows.filter (fun r => r.entity_id == eid) ≠ []) :
    process_data desc dataOpt eid rows n =
      ((deleteAllPhase desc (rows.filter (fun r => r.entity_id == eid)) rows).1,
       (deleteAllPhase desc (rows.filter (fun r => r.entity_id == eid)) rows).2, n) := by
  unfold process_data
  rw [if_neg (not_not_intro hdl), if_pos hdb]

lemma process_data_eq_none (desc : TableDesc) (dataOpt : Option (List CollItem))
    (eid : String) (rows : List CollRow) (n : Nat)
    (hdl : dataOpt.getD [] = []) (hdb : rows.filter (fun r => r.entity_id == eid) = []) :
    process_data desc dataOpt eid rows n = (rows, [], n) := by
  unfold process_data
  rw [if_neg (not_not_intro hdl), if_neg (not_not_intro hdb)]

lemma countP_isAddLogFor_addLogs (desc : TableDesc) (eid : String)
    (dataL items : List CollItem) (d : CollItem)
    (hd : d ∈ dataL) (hdin : d ∉ items)
    (hdata : dataL.Nodup)
    (hde : ∀ x ∈ dataL, x.entity_id = eid)
    (hlen : ∀ x ∈ dataL, x.attrs.length = desc.payloadCols.length)
    (hcol : "entity_id" ∉ desc.payloadCols) (hcne : desc.payloadCols ≠ []) :
    ((dataL.filter (fun x => decide (x ∉ items))).map
      (mkAddLog desc eid)).countP (isAddLogFor desc eid d) = 1 := by
  rw [List.countP_map]
  rw [List.countP_congr (q := fun x => x == d) ?hiff]
  · rw [← List.count_eq_countP]
    exact List.count_eq_one_of_mem (List.Nodup.filter _ hdata)
      (List.mem_filter.mpr ⟨hd, by simp [hdin]⟩)
  case hiff =>
    intro x hx
    have hx0 := List.mem_of_mem_filter hx
    simp only [Function.comp, isAddLogFor, Bool.or_eq_true, beq_iff_eq]
    constructor
    · rintro (h | h)
      · have hattrs : x.attrs = d.attrs :=
          (mkAddLog_eq_iff (hlen x hx0) (hlen d hd)).mp h
        have hxe := hde x hx0
        have hdee := hde d hd
        cases x; cases d
        simp_all
      · exact absurd h (mkAddLog_ne_mkAddLogAll (hlen x hx0) hcol hcne)
    · rintro rfl
      exact Or.inl rfl

lemma countP_isAddLogFor_delLogs (desc : TableDesc) (eid : String) (d : CollItem)
    (l : List CollRow) :
    (l.map (mkDelLog desc)).countP (isAddLogFor desc eid d) = 0 := by
  rw [List.countP_map]
  apply List.countP_eq_zero.mpr
  intro x _
  simp only [Function.comp, isAddLogFor, Bool.or_eq_true, beq_iff_eq]
  rintro (h | h)
  · exact (mkDelLog_ne_add).1 h
  · exact (mkDelLog_ne_add).2 h

lemma count_mkDelLog_addLogs (desc : TableDesc) (eid : String) (r : CollRow)
    (l : List CollItem) :
    (l.map (mkAddLog desc eid)).count (mkDelLog desc r) = 0 := by
  rw [List.count_eq_countP, List.countP_map]
  apply List.countP_eq_zero.mpr
  intro x _
  simp only [Function.comp, beq_iff_eq]
  intro h
  exact (@mkDelLog_ne_add desc eid r x).1 h.symm

lemma count_mkDelLog_map (desc : TableDesc) (r : CollRow) (l : List CollRow)
    (hnd : l.Nodup) (hr : r ∈ l)
    (hinj : ∀ x ∈ l, rowDict x = rowDict r → x = r)
    (hlenl : ∀ x ∈ l, x.attrs.length = desc.payloadCols.length)
    (hlr : r.attrs.length = desc.payloadCols.length) :
    (l.map (mkDelLog desc)).count (mkDelLog desc r) = 1 := by
  rw [List.count_eq_countP, List.countP_map]
  rw [List.countP_congr (q := fun x => x == r) ?hiff]
  · rw [← List.count_eq_countP]
    exact List.count_eq_one_of_mem hnd hr
  case hiff =>
    intro x hx
    simp only [Function.comp, beq_iff_eq]
    constructor
    · intro h
      exact hinj x hx ((mkDelLog_eq_iff (hlenl x hx) hlr).mp h)
    · rintro rfl
      exact Iff.rfl.mpr rfl

lemma countP_isAddLogFor_addAllLogs (desc : TableDesc) (eid : String)
    (dataL : List CollItem) (d : CollItem)
    (hd : d ∈ dataL) (hdata : dataL.Nodup)
    (hde : ∀ x ∈ dataL, x.entity_id = eid)
    (hlen : ∀ x ∈ dataL, x.attrs.length = desc.payloadCols.length)
    (hcol : "entity_id" ∉ desc.payloadCols) (hcne : desc.payloadCols ≠ []) :
    (dataL.map (mkAddLogAll desc eid)).countP (isAddLogFor desc eid d) = 1 := by
  rw [List.countP_map]
  rw [List.countP_congr (q := fun x => x == d) ?hiff]
  · rw [← List.count_eq_countP]
    exact List.count_eq_one_of_mem hdata hd
  case hiff =>
    intro x hx
    simp only [Function.comp, isAddLogFor, Bool.or_eq_true, beq_iff_eq]
    constructor
    · rintro (h | h)
      · exact absurd h.symm (mkAddLog_ne_mkAddLogAll (hlen d hd) hcol hcne)
      · have hattrs : x.attrs = d.attrs :=
          (mkAddLogAll_eq_iff (hlen x hx) (hlen d hd)).mp h
        have hxe := hde x hx
        have hdee := hde d hd
        cases x; cases d
        simp_all
    · rintro rfl
      exact Or.inr rfl

/-- C2: for the three structurally diffed collections, two rows are equal iff
every non-surrogate-key attribute (entity_id and all payload columns)
matches exactly; an incoming dict matching no stored row is inserted as a
fresh row (surrogate id at or above the sequence counter, i.e. never an
in-place update of an old row) with exactly one `LogEntry{Added}`; a stored
row matching no incoming dict is deleted and logged with exactly one
`LogEntry{Deleted}` carrying its pre-delete column snapshot (`mkDelLog`);
matching stored rows and other entities' rows are kept identically.  A row
that changes one attribute therefore yields exactly one delete plus one add.
Hypotheses are the store's primary-key/sequence invariants and the shape the
producer guarantees for payloads (rows and dicts carry exactly the payload
columns, dicts tagged with the record's entity_id, no duplicates). -/
theorem structural_collection_diff (desc : TableDesc) (dataOpt : Option (List CollItem))
    (eid : String) (rows : List CollRow) (n : Nat)
    (hnd : (rows.map (fun r => r.sid)).Nodup)
    (hlt : ∀ x ∈ rows, x.sid < n)
    (hdict : ((rows.filter (fun r => r.entity_id == eid)).map rowDict).Nodup)
    (hdata : (dataOpt.getD []).Nodup)
    (hde : ∀ d ∈ dataOpt.getD [], d.entity_id = eid)
    (hlen : ∀ d ∈ dataOpt.getD [], d.attrs.length = desc.payloadCols.length)
    (hlenr : ∀ x ∈ rows, x.attrs.length = desc.payloadCols.length)
    (hcol : "entity_id" ∉ desc.payloadCols)
    (hcne : desc.payloadCols ≠ []) :
    (∀ (r : CollRow) (d : CollItem),
      rowDict r = d ↔ r.entity_id = d.entity_id ∧ r.attrs = d.attrs) ∧
    (∀ d ∈ dataOpt.getD [], (∀ x ∈ rows, x.entity_id = eid → rowDict x ≠ d) →
      (∃ x ∈ (process_data desc dataOpt eid rows n).1,
        x.entity_id = eid ∧ x.attrs = d.attrs ∧ n ≤ x.sid) ∧
      (process_data desc dataOpt eid rows n).2.1.countP (isAddLogFor desc eid d) = 1) ∧
    (∀ r ∈ rows, r.entity_id = eid → rowDict r ∉ dataOpt.getD [] →
      r ∉ (process_data desc dataOpt eid rows n).1 ∧
      (process_data desc dataOpt eid rows n).2.1.count (mkDelLog desc r) = 1) ∧
    (∀ r ∈ rows, r.entity_id = eid → rowDict r ∈ dataOpt.getD [] →
      r ∈ (process_data desc dataOpt eid rows n).1) ∧
    (∀ r ∈ rows, r.entity_id ≠ eid → r ∈ (process_data desc dataOpt eid rows n).1) := by
  have hinj_sid := List.inj_on_of_nodup_map hnd
  have hinj_dict := List.inj_on_of_nodup_map hdict
  have hnd_infos : (rows.filter (fun r => r.entity_id == eid)).Nodup :=
    List.Nodup.of_map _ hdict
  refine ⟨?_, ?_, ?_, ?_, ?_⟩
  · intro r d
    constructor
    · intro h
      rw [← h]
      exact ⟨rfl, rfl⟩
    · rintro ⟨h1, h2⟩
      cases d
      simp only [rowDict]
      simp_all
  · intro d hd hnomatch
    have hdl : dataOpt.getD [] ≠ [] := List.ne_nil_of_mem hd
    by_cases hdb : rows.filter (fun r => r.entity_id == eid) = []
    · have h1eq : (process_data desc dataOpt eid rows n).1 =
          rows ++ (addAllPhase desc eid (dataOpt.getD []) n).1 := by
        rw [process_data_eq_addAll desc dataOpt eid rows n hdl hdb]
      have h2eq : (process_data desc dataOpt eid rows n).2.1 =
          (dataOpt.getD []).map (mkAddLogAll desc eid) := by
        rw [process_data_eq_addAll desc dataOpt eid rows n hdl hdb]
        exact addAllPhase_logs desc eid _ n
      constructor
      · obtain ⟨x, hx, hx1, hx2, hx3⟩ := addAllPhase_mem desc eid (dataOpt.getD []) n d hd
        exact ⟨x, h1eq ▸ List.mem_append_right _ hx, hx1, hx2, hx3⟩
      · rw [h2eq]
        exact countP_isAddLogFor_addAllLogs desc eid _ d hd hdata hde hlen hcol hcne
    · have hdi : d ∉ (rows.filter (fun r => r.entity_id == eid)).map rowDict := by
        intro hmem
        rcases List.mem_map.mp hmem with ⟨x, hx, hxd⟩
        rcases List.mem_filter.mp hx with ⟨hxr, hxe⟩
        exact hnomatch x hxr (by simpa using hxe) hxd
      have h1eq : (process_data desc dataOpt eid rows n).1 =
          (delPhase desc (dataOpt.getD []) (rows.filter (fun r => r.entity_id == eid))
            ((rows.filter (fun r => r.entity_id == eid)).map rowDict)
            (rows ++ (addPhase desc eid
              ((rows.filter (fun r => r.entity_id == eid)).map rowDict)
              (dataOpt.getD []) n).1)).1 := by
        rw [process_data_eq_both desc dataOpt eid rows n hdl hdb]
      have h2eq : (process_data desc dataOpt eid rows n).2.1 =
          ((dataOpt.getD []).filter (fun x => decide
            (x ∉ (rows.filter (fun r => r.entity_id == eid)).map rowDict))).map
              (mkAddLog desc eid) ++
          ((rows.filter (fun r => r.entity_id == eid)).filter
            (fun x => decide (rowDict x ∉ dataOpt.getD []))).map (mkDelLog desc) := by
        rw [process_data_eq_both desc dataOpt eid rows n hdl hdb]
        show (addPhase desc eid _ _ n).2.1 ++ (delPhase desc _ _ _ _).2 = _
        rw [addPhase_logs_eq, delLogs_simplify desc _ _ hdict]
      constructor
      · obtain ⟨y, hy, hy1, hy2, hy3⟩ := addPhase_mem desc eid
          ((rows.filter (fun r => r.entity_id == eid)).map rowDict)
          (dataOpt.getD []) n d hd hdi
        refine ⟨y, ?_, hy1, hy2, hy3⟩
        rw [h1eq]
        apply delPhase_keep
        · exact List.mem_append_right _ hy
        · intro idr hidr hsid
          have := hlt idr (List.mem_of_mem_filter hidr)
          omega
      · rw [h2eq, List.countP_append]
        rw [countP_isAddLogFor_addLogs desc eid _ _ d hd hdi hdata hde hlen hcol hcne]
        rw [countP_isAddLogFor_delLogs desc eid d]
  · intro r hr hre hrd
    have hrb : (r.entity_id == eid) = true := by simp [hre]
    have hrinf : r ∈ rows.filter (fun r => r.entity_id == eid) :=
      List.mem_filter.mpr ⟨hr, hrb⟩
    have hdb : rows.filter (fun r => r.entity_id == eid) ≠ [] :=
      List.ne_nil_of_mem hrinf
    by_cases hdl : dataOpt.getD [] = []
    · have h1eq : (process_data desc dataOpt eid rows n).1 =
          (deleteAllPhase desc (rows.filter (fun r => r.entity_id == eid)) rows).1 := by
        rw [process_data_eq_delAll desc dataOpt eid rows n hdl hdb]
      have h2eq : (process_data desc dataOpt eid rows n).2.1 =
          (rows.filter (fun r => r.entity_id == eid)).map (mkDelLog desc) := by
        rw [process_data_eq_delAll desc dataOpt eid rows n hdl hdb]
        exact deleteAllPhase_logs desc _ rows
      refine ⟨?_, ?_⟩
      · rw [h1eq]
        exact deleteAllPhase_removes desc _ rows r ⟨r, hrinf, rfl⟩
      · rw [h2eq]
        exact count_mkDelLog_map desc r _ hnd_infos hrinf
          (fun x hx => hinj_dict hx hrinf)
          (fun x hx => hlenr x (List.mem_of_mem_filter hx))
          (hlenr r hr)
    · have h1eq : (process_data desc dataOpt eid rows n).1 =
          (delPhase desc (dataOpt.getD []) (rows.filter (fun r => r.entity_id == eid))
            ((rows.filter (fun r => r.entity_id == eid)).map rowDict)
            (rows ++ (addPhase desc eid
              ((rows.filter (fun r => r.entity_id == eid)).map rowDict)
              (dataOpt.getD []) n).1)).1 := by
        rw [process_data_eq_both desc dataOpt eid rows n hdl hdb]
      have h2eq : (process_data desc dataOpt eid rows n).2.1 =
          ((dataOpt.getD []).filter (fun x => decide
            (x ∉ (rows.filter (fun r => r.entity_id == eid)).map rowDict))).map
              (mkAddLog desc eid) ++
          ((rows.filter (fun r => r.entity_id == eid)).filter
            (fun x => decide (rowDict x ∉ dataOpt.getD []))).map (mkDelLog desc) := by
        rw [process_data_eq_both desc dataOpt eid rows n hdl hdb]
        show (addPhase desc eid _ _ n).2.1 ++ (delPhase desc _ _ _ _).2 = _
        rw [addPhase_logs_eq, delLogs_simplify desc _ _ hdict]
      refine ⟨?_, ?_⟩
      · rw [h1eq]
        exact delPhase_removes desc _ _ _ _ r
          (List.mem_map.mpr ⟨r, hrinf, rfl⟩) hrd ⟨r, hrinf, rfl, rfl⟩
      · rw [h2eq, List.count_append]
        rw [count_mkDelLog_addLogs desc eid r _]
        have hrfl : r ∈ (rows.filter (fun r => r.entity_id == eid)).filter
            (fun x => decide (rowDict x ∉ dataOpt.getD [])) :=
          List.mem_filter.mpr ⟨hrinf, by simp [hrd]⟩
        rw [count_mkDelLog_map desc r _ (List.Nodup.filter _ hnd_infos) hrfl
          (fun x hx => hinj_dict (List.mem_of_mem_filter hx) hrinf)
          (fun x hx => hlenr x (List.mem_of_mem_filter (List.mem_of_mem_filter hx)))
          (hlenr r hr)]
  · intro r hr hre hrd
    have hrb : (r.entity_id == eid) = true := by simp [hre]
    have hrinf : r ∈ rows.filter (fun r => r.entity_id == eid) :=
      List.mem_filter.mpr ⟨hr, hrb⟩
    have hdb : rows.filter (fun r => r.entity_id == eid) ≠ [] :=
      List.ne_nil_of_mem hrinf
    have hdl : dataOpt.getD [] ≠ [] := List.ne_nil_of_mem hrd
    have h1eq : (process_data desc dataOpt eid rows n).1 =
        (delPhase desc (dataOpt.getD []) (rows.filter (fun r => r.entity_id == eid))
          ((rows.filter (fun r => r.entity_id == eid)).map rowDict)
          (rows ++ (addPhase desc eid
            ((rows.filter (fun r => r.entity_id == eid)).map rowDict)
            (dataOpt.getD []) n).1)).1 := by
      rw [process_data_eq_both desc dataOpt eid rows n hdl hdb]
    rw [h1eq]
    apply delPhase_keep
    · exact List.mem_append_left _ hr
    · intro idr hidr hsid
      have hidr0 := List.mem_of_mem_filter hidr
      have : idr = r := hinj_sid hidr0 hr hsid
      rw [this]
      exact hrd
  · intro r hr hre
    by_cases hdl : dataOpt.getD [] = []
    · by_cases hdb : rows.filter (fun q => q.entity_id == eid) = []
      · have h1eq : (process_data desc dataOpt eid rows n).1 = rows := by
          rw [process_data_eq_none desc dataOpt eid rows n hdl hdb]
        rw [h1eq]
        exact hr
      · have h1eq : (process_data desc dataOpt eid rows n).1 =
            (deleteAllPhase desc (rows.filter (fun q => q.entity_id == eid)) rows).1 := by
          rw [process_data_eq_delAll desc dataOpt eid rows n hdl hdb]
        rw [h1eq]
        apply deleteAllPhase_keep desc _ rows r hr
        intro y hy hsid
        have hy0 := List.mem_of_mem_filter hy
        have : y = r := hinj_sid hy0 hr hsid
        rw [this] at hy
        have := (List.mem_filter.mp hy).2
        simp [hre] at this
    · by_cases hdb : rows.filter (fun q => q.entity_id == eid) = []
      · have h1eq : (process_data desc dataOpt eid rows n).1 =
            rows ++ (addAllPhase desc eid (dataOpt.getD []) n).1 := by
          rw [process_data_eq_addAll desc dataOpt eid rows n hdl hdb]
        rw [h1eq]
        exact List.mem_append_left _ hr
      · have h1eq : (process_data desc dataOpt eid rows n).1 =
            (delPhase desc (dataOpt.getD []) (rows.filter (fun q => q.entity_id == eid))
              ((rows.filter (fun q => q.entity_id == eid)).map rowDict)
              (rows ++ (addPhase desc eid
                ((rows.filter (fun q => q.entity_id == eid)).map rowDict)
                (dataOpt.getD []) n).1)).1 := by
          rw [process_data_eq_both desc dataOpt eid rows n hdl hdb]
        rw [h1eq]
        apply delPhase_keep
        · exact List.mem_append_left _ hr
        · intro idr hidr hsid
          have hidr0 := List.mem_of_mem_filter hidr
          have : idr = r := hinj_sid hidr0 hr hsid
          rw [this] at hidr
          have := (List.mem_filter.mp hidr).2
          simp [hre] at this

/-- Witness inputs for the structural diff: stored nationality `FR`, incoming
nationality `BE` for the same entity. -/
def rowsC2 : List CollRow := [⟨0, "X1", [some (.s "FR")]⟩]

def dataC2 : Option (List CollItem) := some [⟨"X1", [some (.s "BE")]⟩]

theorem structural_collection_diff_witness :
    (∀ (r : CollRow) (d : CollItem),
      rowDict r = d ↔ r.entity_id = d.entity_id ∧ r.attrs = d.attrs) ∧
    (∀ d ∈ dataC2.getD [], (∀ x ∈ rowsC2, x.entity_id = "X1" → rowDict x ≠ d) →
      (∃ x ∈ (process_data nationalityDesc dataC2 "X1" rowsC2 1).1,
        x.entity_id = "X1" ∧ x.attrs = d.attrs ∧ 1 ≤ x.sid) ∧
      (process_data nationalityDesc dataC2 "X1" rowsC2 1).2.1.countP
        (isAddLogFor nationalityDesc "X1" d) = 1) ∧
    (∀ r ∈ rowsC2, r.entity_id = "X1" → rowDict r ∉ dataC2.getD [] →
      r ∉ (process_data nationalityDesc dataC2 "X1" rowsC2 1).1 ∧
      (process_data nationalityDesc dataC2 "X1" rowsC2 1).2.1.count
        (mkDelLog nationalityDesc r) = 1) ∧
    (∀ r ∈ rowsC2, r.entity_id = "X1" → rowDict r ∈ dataC2.getD [] →
      r ∈ (process_data nationalityDesc dataC2 "X1" rowsC2 1).1) ∧
    (∀ r ∈ rowsC2, r.entity_id ≠ "X1" →
      r ∈ (process_data nationalityDesc dataC2 "X1" rowsC2 1).1) :=
  structural_collection_diff nationalityDesc dataC2 "X1" rowsC2 1
    (by decide) (by decide) (by decide) (by decide) (by decide) (by decide)
    (by decide) (by decide) (by decide)

/-- A changed message for entity `X1` carrying one picture (id 1), against a
store in which `X1` has zero pictures. -/
def mC3 : PersonalInfoData :=
  ⟨"X1", .null, .null, .null, .null, .null, .null, .null, .null, .null, .null, .null,
   true, .null, none, none, none, some [⟨"X1", 1, "http://img/1", "QUJD"⟩]⟩

/-- C3 (divergence witness): the picture branch of `callback_change_db`
guards inserts behind `if data['pictures'] and db_picture_ids:`, so when the
entity has no stored picture an incoming picture is silently ignored — the
apply is a complete no-op: no `picture_informations` row is inserted and no
`LogEntry{Added}` is appended, although the claim (and §3's multiset
invariant) require one insert plus one `Added` log entry. -/
theorem picture_insert_skipped_when_none_stored :
    callback_change_db dbOne mC3 = .ok dbOne ∧
    dbOne.pictures = [] ∧ (mC3.pictures.getD []).length = 1 :=
  ⟨rfl, rfl, rfl⟩

/-! ## Picture-branch machinery -/

lemma deletePicsLoop_sub (eid : String) :
    ∀ (pids : List Int) (rows : List PictureRow) (x : PictureRow),
    x ∈ (deletePicsLoop eid pids rows).1 → x ∈ rows := by
  intro pids
  induction pids with
  | nil => intro rows x hx; exact hx
  | cons pid pids ih =>
    intro rows x hx
    rw [deletePicsLoop] at hx
    cases hf : rows.find? (fun p => p.picture_id == pid) with
    | none => rw [hf] at hx; exact ih rows x hx
    | some pinfo =>
      rw [hf] at hx
      exact List.mem_of_mem_filter (ih _ x hx)

lemma deletePicsLoop_keep (eid : String) :
    ∀ (pids : List Int) (rows : List PictureRow) (x : PictureRow),
    x ∈ rows → x.picture_id ∉ pids → x ∈ (deletePicsLoop eid pids rows).1 := by
  intro pids
  induction pids with
  | nil => intro rows x hx _; exact hx
  | cons pid pids ih =>
    intro rows x hx hnp
    rw [deletePicsLoop]
    have hnp1 : x.picture_id ≠ pid := fun h => hnp (h ▸ List.mem_cons_self _ _)
    have hnp2 : x.picture_id ∉ pids := fun h => hnp (List.mem_cons_of_mem _ h)
    cases hf : rows.find? (fun p => p.picture_id == pid) with
    | none => exact ih rows x hx hnp2
    | some pinfo =>
      have hpid : pinfo.picture_id = pid := by
        have := List.find?_some hf
        simpa using this
      apply ih
      · apply List.mem_filter.mpr
        refine ⟨hx, ?_⟩
        simp [hpid, hnp1]
      · exact hnp2

lemma deletePicsLoop_removes (eid : String) :
    ∀ (pids : List Int) (rows : List PictureRow) (x : PictureRow),
    x.picture_id ∈ pids → x ∉ (deletePicsLoop eid pids rows).1 := by
  intro pids
  induction pids with
  | nil => intro rows x hx; cases hx
  | cons pid pids ih =>
    intro rows x hx hmem
    rcases List.mem_cons.mp hx with heq | htail
    · rw [deletePicsLoop] at hmem
      cases hf : rows.find? (fun p => p.picture_id == pid) with
      | none =>
        rw [hf] at hmem
        have hxr := deletePicsLoop_sub eid pids rows x hmem
        have := List.find?_eq_none.mp hf x hxr
        simp [heq] at this
      | some pinfo =>
        rw [hf] at hmem
        have hpid : pinfo.picture_id = pid := by
          have := List.find?_some hf
          simpa using this
        have hxr := deletePicsLoop_sub eid pids _ x hmem
        have := (List.mem_filter.mp hxr).2
        simp [hpid, heq] at this
    · rw [deletePicsLoop] at hmem
      cases hf : rows.find? (fun p => p.picture_id == pid) with
      | none => rw [hf] at hmem; exact ih rows x htail hmem
      | some pinfo => rw [hf] at hmem; exact ih _ x htail hmem

lemma addPicsLoop_char (eid : String) (pics : List PicPayload) :
    ∀ (ps : List Int) (x : PictureRow),
    x ∈ (addPicsLoop eid pics ps).1 → x.picture_id ∈ ps ∧ x.entity_id = eid := by
  intro ps
  induction ps with
  | nil => intro x hx; cases hx
  | cons p ps ih =>
    intro x hx
    rw [addPicsLoop] at hx
    rcases List.mem_append.mp hx with hx1 | hx2
    · rcases List.mem_map.mp hx1 with ⟨f, -, hf⟩
      rw [← hf]
      exact ⟨List.mem_cons_self _ _, rfl⟩
    · obtain ⟨h1, h2⟩ := ih x hx2
      exact ⟨List.mem_cons_of_mem _ h1, h2⟩

lemma addPicsLoop_covers (eid : String) (pics : List PicPayload) :
    ∀ (ps : List Int) (p : Int), p ∈ ps → (∃ f ∈ pics, f.picture_id = p) →
    ∃ x ∈ (addPicsLoop eid pics ps).1, x.picture_id = p ∧ x.entity_id = eid := by
  intro ps
  induction ps with
  | nil => intro p hp; cases hp
  | cons p0 ps ih =>
    intro p hp ⟨f, hf, hfp⟩
    rw [addPicsLoop]
    rcases List.mem_cons.mp hp with rfl | hp'
    · refine ⟨⟨p, eid, f.picture_url, f.picture_base64⟩, ?_, rfl, rfl⟩
      apply List.mem_append_left
      apply List.mem_map.mpr
      exact ⟨f, List.mem_filter.mpr ⟨hf, by simp [hfp]⟩, rfl⟩
    · obtain ⟨x, hx, h1, h2⟩ := ih p hp' ⟨f, hf, hfp⟩
      exact ⟨x, List.mem_append_right _ hx, h1, h2⟩

lemma deleteAllPicsLoop_sub :
    ∀ (pids : List Int) (rows : List PictureRow) (res : List PictureRow × List LogRow),
    deleteAllPicsLoop pids rows = .ok res → ∀ x ∈ res.1, x ∈ rows := by
  intro pids
  induction pids with
  | nil =>
    intro rows res h x hx
    injection h with h'
    rw [← h'] at hx
    exact hx
  | cons pid pids ih =>
    intro rows res h x hx
    rw [deleteAllPicsLoop] at h
    cases hf : rows.filter (fun p => p.picture_id == pid) with
    | nil => rw [hf] at h; cases h
    | cons pdb l =>
      cases l with
      | cons b l' => rw [hf] at h; cases h
      | nil =>
        rw [hf] at h
        cases hrec : deleteAllPicsLoop pids (rows.filter (fun p => p.picture_id ≠ pid)) with
        | error e => rw [hrec] at h; cases h
        | ok rest =>
          rw [hrec] at h
          injection h with h'
          rw [← h'] at hx
          have := ih _ rest hrec x hx
          exact List.mem_of_mem_filter this

lemma deleteAllPicsLoop_removes :
    ∀ (pids : List Int) (rows : List PictureRow) (res : List PictureRow × List LogRow),
    deleteAllPicsLoop pids rows = .ok res →
    ∀ pid ∈ pids, ∀ x ∈ res.1, x.picture_id ≠ pid := by
  intro pids
  induction pids with
  | nil => intro rows res h pid hpid; cases hpid
  | cons pid0 pids ih =>
    intro rows res h pid hpid x hx
    rw [deleteAllPicsLoop] at h
    cases hf : rows.filter (fun p => p.picture_id == pid0) with
    | nil => rw [hf] at h; cases h
    | cons pdb l =>
      cases l with
      | cons b l' => rw [hf] at h; cases h
      | nil =>
        rw [hf] at h
        cases hrec : deleteAllPicsLoop pids (rows.filter (fun p => p.picture_id ≠ pid0)) with
        | error e => rw [hrec] at h; cases h
        | ok rest =>
          rw [hrec] at h
          injection h with h'
          rw [← h'] at hx
          rcases List.mem_cons.mp hpid with rfl | hpid'
          · have hsub := deleteAllPicsLoop_sub pids _ rest hrec x hx
            have := (List.mem_filter.mp hsub).2
            simpa using this
          · exact ih _ rest hrec pid hpid' x hx

lemma collStep_ok_elim {db : DBState} {eid : String} {desc : TableDesc}
    {sel : DBState → List CollRow} {upd : DBState → List CollRow → DBState}
    {dataOpt : Option (List CollItem)} {db' : DBState}
    (h : collStep db eid desc sel upd dataOpt = .ok db') :
    (∃ S, queryOnePersonal db eid = .ok S) ∧
    db' = { upd db (process_data desc dataOpt eid (sel db) db.nextId).1 with
            log := db.log ++ (process_data desc dataOpt eid (sel db) db.nextId).2.1,
            nextId := (process_data desc dataOpt eid (sel db) db.nextId).2.2 } := by
  unfold collStep at h
  cases hq : queryOnePersonal db eid with
  | error e => rw [hq] at h; cases h
  | ok S =>
    rw [hq] at h
    replace h : Except.ok (ε := Err)
        { upd db (process_data desc dataOpt eid (sel db) db.nextId).1 with
          log := db.log ++ (process_data desc dataOpt eid (sel db) db.nextId).2.1,
          nextId := (process_data desc dataOpt eid (sel db) db.nextId).2.2 } =
        Except.ok db' := h
    injection h with h'
    exact ⟨⟨S, rfl⟩, h'.symm⟩

lemma picturesStep_ok_elim {db : DBState} {eid : String}
    {dataOpt : Option (List PicPayload)} {db' : DBState}
    (h : picturesStep db eid dataOpt = .ok db') :
    (∃ S, queryOnePersonal db eid = .ok S) ∧
    ((dataOpt.getD [] ≠ [] ∧ entityPictureIds db eid ≠ [] ∧
      db' = { db with
        pictures := (deletePicsLoop eid ((entityPictureIds db eid).filter
            (fun q => q ∉ (dataOpt.getD []).map (fun q => q.picture_id))) db.pictures).1 ++
          (addPicsLoop eid (dataOpt.getD [])
            (((dataOpt.getD []).map (fun q => q.picture_id)).filter
              (fun p => p ∉ entityPictureIds db eid))).1,
        log := db.log ++ (deletePicsLoop eid ((entityPictureIds db eid).filter
            (fun q => q ∉ (dataOpt.getD []).map (fun q => q.picture_id))) db.pictures).2 ++
          (addPicsLoop eid (dataOpt.getD [])
            (((dataOpt.getD []).map (fun q => q.picture_id)).filter
              (fun p => p ∉ entityPictureIds db eid))).2 }) ∨
     (dataOpt.getD [] = [] ∧ entityPictureIds db eid ≠ [] ∧
      ∃ res, deleteAllPicsLoop (entityPictureIds db eid) db.pictures = .ok res ∧
        db' = { db with pictures := res.1, log := db.log ++ res.2 }) ∨
     (¬(dataOpt.getD [] ≠ [] ∧ entityPictureIds db eid ≠ []) ∧
      ¬(dataOpt.getD [] = [] ∧ entityPictureIds db eid ≠ []) ∧ db' = db)) := by
  unfold picturesStep at h
  cases hq : queryOnePersonal db eid with
  | error e => rw [hq] at h; cases h
  | ok S =>
    rw [hq] at h
    refine ⟨⟨S, rfl⟩, ?_⟩
    by_cases h1 : dataOpt.getD [] ≠ [] ∧ entityPictureIds db eid ≠ []
    · rw [if_pos h1] at h
      injection h with h'
      exact Or.inl ⟨h1.1, h1.2, h'.symm⟩
    · rw [if_neg h1] at h
      by_cases h2 : dataOpt.getD [] = [] ∧ entityPictureIds db eid ≠ []
      · rw [if_pos h2] at h
        cases hres : deleteAllPicsLoop (entityPictureIds db eid) db.pictures with
        | error e => rw [hres] at h; cases h
        | ok res =>
          rw [hres] at h
          injection h with h'
          exact Or.inr (Or.inl ⟨h2.1, h2.2, res, rfl, h'.symm⟩)
      · rw [if_neg h2] at h
        injection h with h'
        exact Or.inr (Or.inr ⟨h1, h2, h'.symm⟩)

lemma picturesStep_pc {db : DBState} {eid : String}
    {dataOpt : Option (List PicPayload)} {db' : DBState}
    (h : picturesStep db eid dataOpt = .ok db') :
    db'.personals = db.personals ∧ db'.change_log = db.change_log ∧
    db'.languages = db.languages ∧ db'.nationalities = db.nationalities ∧
    db'.warrants = db.warrants ∧ db'.nextId = db.nextId := by
  obtain ⟨-, hcase⟩ := picturesStep_ok_elim h
  rcases hcase with ⟨-, -, rfl⟩ | ⟨-, -, res, -, rfl⟩ | ⟨-, -, rfl⟩ <;>
    exact ⟨rfl, rfl, rfl, rfl, rfl, rfl⟩

lemma picturesStep_idem {db : DBState} {eid : String}
    {dataOpt : Option (List PicPayload)} {db' : DBState}
    (h : picturesStep db eid dataOpt = .ok db') :
    picturesStep db' eid dataOpt = .ok db' := by
  obtain ⟨⟨S, hq⟩, hcase⟩ := picturesStep_ok_elim h
  rcases hcase with ⟨hne, hdbne, hdb'⟩ | ⟨hnil, hdbne, res, hres, hdb'⟩ | ⟨h1, h2, rfl⟩
  · have hq' : queryOnePersonal db' eid = .ok S := by
      rw [queryOne_congr eid (by rw [hdb'])]
      exact hq
    apply picturesStep_noop db' eid dataOpt S hq'
    · intro pid hpid
      rcases List.mem_map.mp (by
        unfold entityPictureIds at hpid
        exact hpid) with ⟨x, hx, hxp⟩
      rcases List.mem_filter.mp hx with ⟨hxr, hxe⟩
      rw [hdb'] at hxr
      rcases List.mem_append.mp hxr with hdel | hadd
      · have hxdb : x ∈ db.pictures := deletePicsLoop_sub eid _ db.pictures x hdel
        have hxid : x.picture_id ∈ entityPictureIds db eid := by
          unfold entityPictureIds
          exact List.mem_map.mpr ⟨x, List.mem_filter.mpr ⟨hxdb, hxe⟩, rfl⟩
        have hxnd : x.picture_id ∉ (entityPictureIds db eid).filter
            (fun q => q ∉ (dataOpt.getD []).map (fun q => q.picture_id)) := by
          intro hmem
          exact deletePicsLoop_removes eid _ db.pictures x (by simpa using hmem) hdel
        rw [← hxp]
        by_contra hq2
        exact hxnd (List.mem_filter.mpr ⟨hxid, by simpa using hq2⟩)
      · obtain ⟨hpidmem, -⟩ := addPicsLoop_char eid (dataOpt.getD []) _ x hadd
        rw [← hxp]
        exact List.mem_of_mem_filter hpidmem
    · intro q hqmem
      by_cases hqdb : q ∈ entityPictureIds db eid
      · rcases List.mem_map.mp (by
          unfold entityPictureIds at hqdb
          exact hqdb) with ⟨x, hx, hxp⟩
        rcases List.mem_filter.mp hx with ⟨hxr, hxe⟩
        have hkeep : x ∈ (deletePicsLoop eid ((entityPictureIds db eid).filter
            (fun q => q ∉ (dataOpt.getD []).map (fun q => q.picture_id))) db.pictures).1 := by
          apply deletePicsLoop_keep eid _ db.pictures x hxr
          intro hmem
          have := (List.mem_filter.mp hmem).2
          rw [hxp] at this
          simp [hqmem] at this
        unfold entityPictureIds
        apply List.mem_map.mpr
        refine ⟨x, List.mem_filter.mpr ⟨?_, hxe⟩, hxp⟩
        rw [hdb']
        exact List.mem_append_left _ hkeep
      · rcases List.mem_map.mp hqmem with ⟨f, hf, hfp⟩
        obtain ⟨x, hx, hx1, hx2⟩ := addPicsLoop_covers eid (dataOpt.getD [])
          (((dataOpt.getD []).map (fun q => q.picture_id)).filter
            (fun p => p ∉ entityPictureIds db eid)) q
          (List.mem_filter.mpr ⟨hqmem, by simpa using hqdb⟩) ⟨f, hf, hfp⟩
        unfold entityPictureIds
        apply List.mem_map.mpr
        refine ⟨x, List.mem_filter.mpr ⟨?_, by simp [hx2]⟩, hx1⟩
        rw [hdb']
        exact List.mem_append_right _ hx
  · have hq' : queryOnePersonal db' eid = .ok S := by
      rw [queryOne_congr eid (by rw [hdb'])]
      exact hq
    have hids' : entityPictureIds db' eid = [] := by
      unfold entityPictureIds
      apply List.map_eq_nil_iff.mpr
      apply List.filter_eq_nil_iff.mpr
      intro x hx hxe
      rw [hdb'] at hx
      have hxres : x ∈ res.1 := hx
      have hxdb := deleteAllPicsLoop_sub _ db.pictures res hres x hxres
      have hxid : x.picture_id ∈ entityPictureIds db eid := by
        unfold entityPictureIds
        exact List.mem_map.mpr ⟨x, List.mem_filter.mpr ⟨hxdb, hxe⟩, rfl⟩
      exact deleteAllPicsLoop_removes _ db.pictures res hres x.picture_id hxid x hxres rfl
    unfold picturesStep
    rw [hq']
    rw [if_neg (by rw [hids', hnil]; simp), if_neg (by rw [hids']; simp)]
  · exact h

/-- The thirteen non-`entity_id` scalar entries of `data.items()`, in dict
order: the tail of `scalarItems`. -/
def restItems (m : PersonalInfoData) : List (String × Jscalar) :=
  [("name", m.name), ("forename", m.forename), ("sex_id", m.sex_id),
   ("country_of_birth_id", m.country_of_birth_id),
   ("place_of_birth", m.place_of_birth), ("date_of_birth", m.date_of_birth),
   ("height", m.height), ("eyes_colors_id", m.eyes_colors_id),
   ("hairs_id", m.hairs_id), ("distinguishing_marks", m.distinguishing_marks),
   ("weight", m.weight), ("is_active", .b m.is_active), ("thumbnail", m.thumbnail)]

lemma restItems_pairwise (m : PersonalInfoData) :
    List.Pairwise (fun a b => fieldOfKey a.1 ≠ fieldOfKey b.1) (restItems m) := by
  have h : List.Pairwise (fun a b => fieldOfKey a ≠ fieldOfKey b)
      ((restItems m).map Prod.fst) := by
    show List.Pairwise (fun a b => fieldOfKey a ≠ fieldOfKey b)
      ["name", "forename", "sex_id", "country_of_birth_id", "place_of_birth",
       "date_of_birth", "height", "eyes_colors_id", "hairs_id",
       "distinguishing_marks", "weight", "is_active", "thumbnail"]
    decide
  have h2 := List.pairwise_map.mp h
  exact h2

lemma restItems_no_entity (m : PersonalInfoData) :
    ∀ kv ∈ restItems m, fieldOfKey kv.1 ≠ some PField.entity_id := by
  intro kv hkv
  have h : ∀ k ∈ (["name", "forename", "sex_id", "country_of_birth_id",
      "place_of_birth", "date_of_birth", "height", "eyes_colors_id", "hairs_id",
      "distinguishing_marks", "weight", "is_active", "thumbnail"] : List String),
      fieldOfKey k ≠ some PField.entity_id := by decide
  exact h kv.1 (List.mem_map_of_mem Prod.fst hkv)

lemma restItems_is_active (m : PersonalInfoData) :
    ∀ kv ∈ restItems m, fieldOfKey kv.1 = some PField.is_active →
      ∃ b, kv.2 = Jscalar.b b := by
  intro kv hkv hf
  simp only [restItems, List.mem_cons, List.not_mem_nil, or_false] at hkv
  rcases hkv with rfl | rfl | rfl | rfl | rfl | rfl | rfl | rfl | rfl | rfl | rfl | rfl | rfl
  all_goals first
  | exact ⟨m.is_active, rfl⟩
  | (exfalso; cases hf)

lemma callback_change_ok_elim {db : DBState} {m : PersonalInfoData} {db₁ : DBState}
    (h : callback_change_db db m = .ok db₁) :
    ∃ dbS db2 db3 db4,
      runScalars m.entity_id db (scalarItems m) = .ok dbS ∧
      collStep dbS m.entity_id nationalityDesc (fun s => s.nationalities)
        (fun s rs => { s with nationalities := rs }) m.nationalities = .ok db2 ∧
      collStep db2 m.entity_id languageDesc (fun s => s.languages)
        (fun s rs => { s with languages := rs }) m.languages_spoken_ids = .ok db3 ∧
      collStep db3 m.entity_id arrestWarrantDesc (fun s => s.warrants)
        (fun s rs => { s with warrants := rs }) m.arrest_warrants = .ok db4 ∧
      picturesStep db4 m.entity_id m.pictures = .ok db₁ := by
  unfold callback_change_db at h
  cases hs : runScalars m.entity_id db (scalarItems m) with
  | error e => rw [hs] at h; cases h
  | ok dbS =>
    simp only [hs] at h
    cases hn : collStep dbS m.entity_id nationalityDesc (fun s => s.nationalities)
        (fun s rs => { s with nationalities := rs }) m.nationalities with
    | error e => rw [hn] at h; cases h
    | ok db2 =>
      simp only [hn] at h
      cases hl : collStep db2 m.entity_id languageDesc (fun s => s.languages)
          (fun s rs => { s with languages := rs }) m.languages_spoken_ids with
      | error e => rw [hl] at h; cases h
      | ok db3 =>
        simp only [hl] at h
        cases hw : collStep db3 m.entity_id arrestWarrantDesc (fun s => s.warrants)
            (fun s rs => { s with warrants := rs }) m.arrest_warrants with
        | error e => rw [hw] at h; cases h
        | ok db4 =>
          simp only [hw] at h
          exact ⟨dbS, db2, db3, db4, rfl, hn, hl, hw, h⟩

/-- **C7**: collection diffing is idempotent as a round-trip.  Once
`callback_change_db` has applied a `Changed` delta built from remote record
`m` and produced state `db₁`, re-running the identical message against
`db₁` classifies everything as unchanged: every scalar comparison sees
equal values, all four collection diffs compute no add and no delete, and
the run returns `db₁` itself — no row, `change_log`, `log` or counter
mutation.  Hypotheses: the three structural tables carry pairwise-distinct
surrogate ids below the id counter, and each incoming collection dict's
`entity_id` equals the message's (as the producer serializes them). -/
theorem changed_delta_apply_idempotent (db db₁ : DBState) (m : PersonalInfoData)
    (hndN : (db.nationalities.map (fun r => r.sid)).Nodup)
    (hltN : ∀ r ∈ db.nationalities, r.sid < db.nextId)
    (hdeN : ∀ d ∈ m.nationalities.getD [], d.entity_id = m.entity_id)
    (hndL : (db.languages.map (fun r => r.sid)).Nodup)
    (hltL : ∀ r ∈ db.languages, r.sid < db.nextId)
    (hdeL : ∀ d ∈ m.languages_spoken_ids.getD [], d.entity_id = m.entity_id)
    (hndW : (db.warrants.map (fun r => r.sid)).Nodup)
    (hltW : ∀ r ∈ db.warrants, r.sid < db.nextId)
    (hdeW : ∀ d ∈ m.arrest_warrants.getD [], d.entity_id = m.entity_id)
    (h1 : callback_change_db db m = .ok db₁) :
    callback_change_db db₁ m = .ok db₁ := by
  obtain ⟨dbS, db2, db3, db4, hs, hn, hl, hw, hp⟩ := callback_change_ok_elim h1
  obtain ⟨tl, tn, tw, tp, tlog, tnid⟩ := runScalars_tables (scalarItems m) db dbS hs
  obtain ⟨⟨Sn, hqSn⟩, hdb2⟩ := collStep_ok_elim hn
  obtain ⟨-, hdb3⟩ := collStep_ok_elim hl
  obtain ⟨-, hdb4⟩ := collStep_ok_elim hw
  obtain ⟨pp, pcl, plg, pnt, pwr, pid⟩ := picturesStep_pc hp
  have h2p : db2.personals = dbS.personals := by rw [hdb2]
  have h2l : db2.languages = dbS.languages := by rw [hdb2]
  have h2w : db2.warrants = dbS.warrants := by rw [hdb2]
  have h2n : db2.nationalities = (process_data nationalityDesc m.nationalities
      m.entity_id dbS.nationalities dbS.nextId).1 := by rw [hdb2]
  have h2id : dbS.nextId ≤ db2.nextId := by
    rw [hdb2]
    exact process_data_counter_ge nationalityDesc m.nationalities m.entity_id
      dbS.nationalities dbS.nextId
  have h3p : db3.personals = db2.personals := by rw [hdb3]
  have h3n : db3.nationalities = db2.nationalities := by rw [hdb3]
  have h3w : db3.warrants = db2.warrants := by rw [hdb3]
  have h3l : db3.languages = (process_data languageDesc m.languages_spoken_ids
      m.entity_id db2.languages db2.nextId).1 := by rw [hdb3]
  have h3id : db2.nextId ≤ db3.nextId := by
    rw [hdb3]
    exact process_data_counter_ge languageDesc m.languages_spoken_ids m.entity_id
      db2.languages db2.nextId
  have h4p : db4.personals = db3.personals := by rw [hdb4]
  have h4n : db4.nationalities = db3.nationalities := by rw [hdb4]
  have h4l : db4.languages = db3.languages := by rw [hdb4]
  have h4w : db4.warrants = (process_data arrestWarrantDesc m.arrest_warrants
      m.entity_id db3.warrants db3.nextId).1 := by rw [hdb4]
  have hP1 : db₁.personals = dbS.personals := pp.trans (h4p.trans (h3p.trans h2p))
  have hq1 : queryOnePersonal db₁ m.entity_id = .ok Sn := by
    rw [queryOne_congr m.entity_id hP1]
    exact hqSn
  have hs2 : runScalars m.entity_id db
      (("entity_id", Jscalar.s m.entity_id) :: restItems m) = .ok dbS := hs
  obtain ⟨dbh, -, htail⟩ := runScalars_ok_cons hs2
  have hidem := runScalars_idem (restItems m) dbh dbS db₁ (restItems_pairwise m)
    (restItems_no_entity m) (restItems_is_active m) htail hP1
  have hstepA : runScalars m.entity_id db₁ (scalarItems m) = .ok db₁ := by
    show runScalars m.entity_id db₁
      (("entity_id", Jscalar.s m.entity_id) :: restItems m) = .ok db₁
    simp only [runScalars, scalarStep_entity_id_noop hq1]
    exact hidem
  have hsyncN := process_data_sync nationalityDesc m.nationalities m.entity_id
    dbS.nationalities dbS.nextId (by rw [tn]; exact hndN)
    (by rw [tn, tnid]; exact hltN) hdeN
  have hN1 : db₁.nationalities = (process_data nationalityDesc m.nationalities
      m.entity_id dbS.nationalities dbS.nextId).1 :=
    pnt.trans (h4n.trans (h3n.trans h2n))
  have hstepB : collStep db₁ m.entity_id nationalityDesc (fun s => s.nationalities)
      (fun s rs => { s with nationalities := rs }) m.nationalities = .ok db₁ := by
    refine collStep_noop db₁ m.entity_id nationalityDesc _ _ m.nationalities Sn hq1 ?_ ?_ rfl
    · have hA := hsyncN.1
      rw [← hN1] at hA
      exact hA
    · have hB := hsyncN.2
      rw [← hN1] at hB
      exact hB
  have hsyncL := process_data_sync languageDesc m.languages_spoken_ids m.entity_id
    db2.languages db2.nextId (by rw [h2l, tl]; exact hndL)
    (by
      intro r hr
      rw [h2l, tl] at hr
      have hnn : db.nextId ≤ db2.nextId := by rw [← tnid]; exact h2id
      exact lt_of_lt_of_le (hltL r hr) hnn) hdeL
  have hL1 : db₁.languages = (process_data languageDesc m.languages_spoken_ids
      m.entity_id db2.languages db2.nextId).1 :=
    plg.trans (h4l.trans h3l)
  have hstepC : collStep db₁ m.entity_id languageDesc (fun s => s.languages)
      (fun s rs => { s with languages := rs }) m.languages_spoken_ids = .ok db₁ := by
    refine collStep_noop db₁ m.entity_id languageDesc _ _ m.languages_spoken_ids Sn hq1 ?_ ?_ rfl
    · have hA := hsyncL.1
      rw [← hL1] at hA
      exact hA
    · have hB := hsyncL.2
      rw [← hL1] at hB
      exact hB
  have hsyncW := process_data_sync arrestWarrantDesc m.arrest_warrants m.entity_id
    db3.warrants db3.nextId (by rw [h3w, h2w, tw]; exact hndW)
    (by
      intro r hr
      rw [h3w, h2w, tw] at hr
      have hnn : db.nextId ≤ db3.nextId := by
        rw [← tnid]
        exact le_trans h2id h3id
      exact lt_of_lt_of_le (hltW r hr) hnn) hdeW
  have hW1 : db₁.warrants = (process_data arrestWarrantDesc m.arrest_warrants
      m.entity_id db3.warrants db3.nextId).1 :=
    pwr.trans h4w
  have hstepD : collStep db₁ m.entity_id arrestWarrantDesc (fun s => s.warrants)
      (fun s rs => { s with warrants := rs }) m.arrest_warrants = .ok db₁ := by
    refine collStep_noop db₁ m.entity_id arrestWarrantDesc _ _ m.arrest_warrants Sn hq1 ?_ ?_ rfl
    · have hA := hsyncW.1
      rw [← hW1] at hA
      exact hA
    · have hB := hsyncW.2
      rw [← hW1] at hB
      exact hB
  have hstepE : picturesStep db₁ m.entity_id m.pictures = .ok db₁ := picturesStep_idem hp
  simp only [callback_change_db, hstepA, hstepB, hstepC, hstepD, hstepE]

/-- The concrete post-apply state of `callback_change_db dbC1 mC1`: only the
`place_of_birth` column changed, with one `change_log` entry. -/
def dbC7res : DBState :=
  applyFieldUpdate dbC1 mC1.entity_id samplePersonalC1 "place_of_birth"
    PField.place_of_birth (.s "Lyon")

theorem changed_delta_apply_idempotent_witness :
    callback_change_db dbC7res mC1 = Except.ok dbC7res :=
  changed_delta_apply_idempotent dbC1 dbC7res mC1 (by decide) (by decide) (by decide)
    (by decide) (by decide) (by decide) (by decide) (by decide) (by decide) rfl
